import Mathlib

/-
Verification of the failure-signal extraction engine of the Jenkins
Investigator MCP server, against its natural-language specification.

The development shallowly embeds the two algorithmic modules of the
repository:

  * `src/utils/log_parser.py`  — priority-budgeted console-log triage
    (severity classification, stage indexing, section building,
    deduplication, budget allocation, report assembly);
  * `src/utils/junit_parser.py` — JUnit/xUnit test-report parsing,
    assertion/exception kind classification and blast-radius detection.

Modelling conventions, stated once here:

  * Python strings are modelled as `Str := List Char`; `lit` converts a
    Lean string literal to that representation.
  * Python `str.splitlines()` is modelled for the `'\n'` line separator
    (the only separator occurring in the programs and in all inputs we
    consider); `charSplit` is Python `str.split('\n')` and
    `pySplitlines` drops the trailing empty piece exactly as
    `splitlines` does.
  * Regular-expression searches are embedded as executable functions on
    `Str` that implement the leftmost-position, leftmost-alternative,
    greedy-with-backtracking semantics of Python `re.search` for the
    concrete patterns appearing in the source.  Character classes `\w`
    and `\s` are modelled by their ASCII portions (the programs and all
    inputs considered are ASCII).
  * Python dicts that are only used for insertion-ordered grouping are
    modelled as association lists where lookup scans first-to-last,
    which reproduces the dict semantics exactly.
  * Python floats appear only in `detect_blast_radius`
    (`len/len >= threshold`) and in parsed `time` attributes.  The
    threshold comparison is modelled exactly as a fraction compared by
    cross multiplication; at the default threshold 0.6 and the integer
    counts involved this coincides with the float comparison.
-/

abbrev Str := List Char

def lit (s : String) : Str := s.data

/-- Python `str.split('\n')`: list of the chunks between newline characters;
never empty, and has a trailing empty chunk when the string ends in `'\n'`. -/
def charSplit : Str → List Str
  | [] => [[]]
  | c :: rest =>
    if c = '\n' then [] :: charSplit rest
    else
      match charSplit rest with
      | h :: t => (c :: h) :: t
      | [] => [[c]]

/-- Python `"\n".join(parts)` on our representation. -/
def joinLines : List Str → Str
  | [] => []
  | [l] => l
  | l :: rest => l ++ '\n' :: joinLines rest

def dropLastIfEmpty (L : List Str) : List Str :=
  if L.getLast? = some [] then L.dropLast else L

/-- Python `str.splitlines()` for `'\n'`-separated text: like
`str.split('\n')` but without the trailing empty piece (and `[]` on the
empty string). -/
def pySplitlines (s : Str) : List Str := dropLastIfEmpty (charSplit s)

-- Character classes (ASCII portions of Python's `\w`, `\s`, `\d`).

def isWordCh (c : Char) : Bool := c.isAlphanum || c = '_'

def isWsCh (c : Char) : Bool :=
  c = ' ' || c = '\t' || c = '\n' || c = '\r' || c = '\x0b' || c = '\x0c'

def isDigitCh (c : Char) : Bool := c.isDigit

def lowerEq (a b : Char) : Bool := a.toLower = b.toLower

/-- Case-insensitive "needle is a prefix of hay". -/
def isPrefixCI : Str → Str → Bool
  | [], _ => true
  | _ :: _, [] => false
  | a :: as_, b :: bs => lowerEq a b && isPrefixCI as_ bs

/-- Case-insensitive substring search (`re.search` of a literal pattern
with `re.IGNORECASE`). -/
def searchCI (needle : Str) : Str → Bool
  | [] => isPrefixCI needle []
  | hay@(_ :: rest) => isPrefixCI needle hay || searchCI needle rest

/-- Word-boundary test used for `\b` before a position: the previous
character (if any) is not a word character. -/
def boundaryBefore (prev : Option Char) : Bool :=
  match prev with
  | none => true
  | some c => !isWordCh c

/-- Word-boundary test after consuming `n` characters of `hay`: the next
character (if any) is not a word character. -/
def boundaryAfter (hay : Str) (n : Nat) : Bool :=
  match (hay.drop n).head? with
  | none => true
  | some c => !isWordCh c

/-- Case-insensitive whole-word search: `\bW\b` for a word-only needle. -/
def searchWordCIAux (needle : Str) (prev : Option Char) : Str → Bool
  | [] => false
  | hay@(c :: rest) =>
    (boundaryBefore prev && isPrefixCI needle hay && boundaryAfter hay needle.length)
      || searchWordCIAux needle (some c) rest

def searchWordCI (needle : Str) (hay : Str) : Bool := searchWordCIAux needle none hay

/-- Case-insensitive search of a literal with only a trailing `\b`
(e.g. `Exception\b`). -/
def searchSuffixBoundCIAux (needle : Str) : Str → Bool
  | [] => false
  | hay@(_ :: rest) =>
    (isPrefixCI needle hay && boundaryAfter hay needle.length)
      || searchSuffixBoundCIAux needle rest

def searchSuffixBoundCI (needle : Str) (hay : Str) : Bool :=
  searchSuffixBoundCIAux needle hay

/-- Case-insensitive search of a literal with only a leading `\b`
(e.g. `\bpanic:`). -/
def searchWordStartCIAux (needle : Str) (prev : Option Char) : Str → Bool
  | [] => false
  | hay@(c :: rest) =>
    (boundaryBefore prev && isPrefixCI needle hay)
      || searchWordStartCIAux needle (some c) rest

def searchWordStartCI (needle : Str) (hay : Str) : Bool :=
  searchWordStartCIAux needle none hay

/-- Embeds `\w+Literal\b` (case-insensitive): an occurrence of the literal
immediately preceded by at least one word character and followed by a
word boundary.  Used by `_EXCEPTION_MSG_RE`. -/
def searchWordPrefixedCIAux (needle : Str) (prev : Option Char) : Str → Bool
  | [] => false
  | hay@(c :: rest) =>
    ((match prev with | some p => isWordCh p | none => false)
        && isPrefixCI needle hay && boundaryAfter hay needle.length)
      || searchWordPrefixedCIAux needle (some c) rest

def searchWordPrefixedCI (needle : Str) (hay : Str) : Bool :=
  searchWordPrefixedCIAux needle none hay

-- ---------------------------------------------------------------------------
-- log_parser.py: budget constants
-- ---------------------------------------------------------------------------

def MAX_LINES : Nat := 250

def HARD_LIMIT : Nat := 350

def CONTEXT_LINES : Nat := 10

def LOG_HEAD_LINES : Nat := 5

def LOG_TAIL_LINES : Nat := 30

def MIN_CLIP_LINES : Nat := 5

-- ---------------------------------------------------------------------------
-- log_parser.py: tiered severity patterns
-- ---------------------------------------------------------------------------

/-- Embeds `FAILURE:\s+Build failed` (case-insensitive): the literal `FAILURE:`
followed by at least one whitespace character and the literal
`Build failed`.  As `B` is not whitespace, the greedy `\s+` consumes the
whole whitespace run. -/
def searchFailureBuild : Str → Bool
  | [] => false
  | hay@(_ :: rest) =>
    (isPrefixCI (lit "failure:") hay &&
      (let r := hay.drop 8
       let r2 := r.dropWhile isWsCh
       decide (r2.length < r.length) && isPrefixCI (lit "build failed") r2))
      || searchFailureBuild rest

/-- Embeds `_CRITICAL_PATTERN.search(line)` as a Boolean. -/
def matchCritical (line : Str) : Bool :=
  searchWordCI (lit "FATAL") line
    || searchCI (lit "SIGKILL") line
    || searchCI (lit "SIGSEGV") line
    || searchCI (lit "OutOfMemoryError") line
    || searchCI (lit "core dumped") line
    || searchCI (lit "BUILD FAILURE") line
    || searchFailureBuild line

/-- Embeds `_ERROR_PATTERN.search(line)` as a Boolean. -/
def matchError (line : Str) : Bool :=
  searchWordCI (lit "ERROR") line
    || searchSuffixBoundCI (lit "Exception") line
    || searchCI (lit "Traceback") line
    || searchCI (lit "npm ERR!") line
    || searchWordCI (lit "FAILED") line
    || searchCI (lit "AssertionError") line
    || searchCI (lit "NullPointerException") line
    || searchWordCI (lit "killed") line
    || searchCI (lit "Caused by:") line
    || searchCI (lit "panic:") line

/-- Embeds `_WARNING_PATTERN.search(line)` as a Boolean.  `\bWARN(?:ING)?\b` is
equivalent to the whole word `WARN` or the whole word `WARNING`. -/
def matchWarning (line : Str) : Bool :=
  searchWordCI (lit "WARN") line
    || searchWordCI (lit "WARNING") line
    || searchWordCI (lit "DEPRECATED") line
    || searchWordCI (lit "UNSTABLE") line

def TIER_CRITICAL : Str := lit "CRITICAL"

def TIER_ERROR : Str := lit "ERROR"

def TIER_WARNING : Str := lit "WARNING"

/-- Embeds `_TIER_RANK.get(tier, 99)`. -/
def tierRank (t : Str) : Nat :=
  if t = TIER_CRITICAL then 0
  else if t = TIER_ERROR then 1
  else if t = TIER_WARNING then 2
  else 99

/-- Embeds `_classify_line`: first pattern wins, CRITICAL > ERROR > WARNING. -/
def _classify_line (line : Str) : Option Str :=
  if matchCritical line then some TIER_CRITICAL
  else if matchError line then some TIER_ERROR
  else if matchWarning line then some TIER_WARNING
  else none

-- ---------------------------------------------------------------------------
-- log_parser.py: `_PHASE_PATTERN` (case-sensitive, searched per line)
-- ---------------------------------------------------------------------------

def expectLit (needle : Str) (s : Str) : Option Str :=
  if needle.isPrefixOf s then some (s.drop needle.length) else none

def expectChar (c : Char) : Str → Option Str
  | [] => none
  | x :: xs => if x = c then some xs else none

def findCharIdx (c : Char) : Str → Option Nat
  | [] => none
  | x :: xs => if x = c then some 0 else (findCharIdx c xs).map (· + 1)

/-- Lazy `(.+?)` followed by a closing character: the capture is the
shortest non-empty prefix whose next character is `close`. -/
def lazyCaptureUntil (close : Char) : Str → Option Str
  | [] => none
  | c0 :: rest => (findCharIdx close rest).map (fun i => c0 :: rest.take i)

/-- Lazy `(.+?)` followed by `\s*---`: shortest non-empty capture such
that after it, skipping whitespace, the literal `---` follows.  (A `-`
is not whitespace, so skipping the whole whitespace run is exact.) -/
def capUntilWsDashes : Str → Option Str
  | [] => none
  | c :: rest =>
    if (lit "---").isPrefixOf (rest.dropWhile isWsCh) then some [c]
    else (capUntilWsDashes rest).map (fun cap => c :: cap)

/-- Backtracking for a greedy `\s*` standing before a lazy capture: the
engine first gives all whitespace to `\s*` and, on failure of the rest of
the pattern, returns the trailing whitespace characters to the capture
one at a time.  `wsRev` is the consumed whitespace run, reversed. -/
def wsBacktrack (capFn : Str → Option Str) : Str → Str → Option Str
  | [], after => capFn after
  | w :: wrest, after =>
    match capFn after with
    | some cap => some cap
    | none => wsBacktrack capFn wrest (w :: after)

def splitWsRun (s : Str) : Str × Str := (s.takeWhile isWsCh, s.dropWhile isWsCh)

/-- Greedy `\s+(.+)` tail (branches `Building (.+)` / `Entering stage (.+)`):
at least one whitespace character, then a greedy non-empty capture; when
everything after the whitespace run is empty the engine backtracks one
whitespace character into the capture. -/
def wsPlusGreedyCapture (s : Str) : Option Str :=
  let ws := s.takeWhile isWsCh
  let after := s.dropWhile isWsCh
  if ws.length = 0 then none
  else if after.length ≠ 0 then some after
  else if 2 ≤ ws.length then some [ws.getLast!]
  else none

/-- Branch `\[Pipeline\]\s*\{\s*\((.+?)\)` tried at one position. -/
def phaseBranch1 (s : Str) : Option Str :=
  (expectLit (lit "[Pipeline]") s).bind fun r1 =>
  (expectChar '{' (r1.dropWhile isWsCh)).bind fun r2 =>
  (expectChar '(' (r2.dropWhile isWsCh)).bind fun r3 =>
  lazyCaptureUntil ')' r3

/-- Branch `^\[INFO\]\s*---\s*(.+?)\s*---` (anchored; tried at position 0). -/
def phaseBranch2 (s : Str) : Option Str :=
  (expectLit (lit "[INFO]") s).bind fun r1 =>
  (expectLit (lit "---") (r1.dropWhile isWsCh)).bind fun r2 =>
  let p := splitWsRun r2
  wsBacktrack capUntilWsDashes p.1.reverse p.2

/-- Branch `^\[INFO\]\s*Building\s+(.+)` (anchored; tried at position 0). -/
def phaseBranch3 (s : Str) : Option Str :=
  (expectLit (lit "[INFO]") s).bind fun r1 =>
  (expectLit (lit "Building") (r1.dropWhile isWsCh)).bind fun r2 =>
  wsPlusGreedyCapture r2

/-- Branch `Stage\s+"(.+?)"` tried at one position. -/
def phaseBranch4 (s : Str) : Option Str :=
  (expectLit (lit "Stage") s).bind fun r1 =>
  let ws := r1.takeWhile isWsCh
  if ws.length = 0 then none
  else
    (expectChar '\"' (r1.dropWhile isWsCh)).bind fun r2 =>
    lazyCaptureUntil '\"' r2

/-- Branch `\[Stage:\s*(.+?)\]` tried at one position. -/
def phaseBranch5 (s : Str) : Option Str :=
  (expectLit (lit "[Stage:") s).bind fun r1 =>
  let p := splitWsRun r1
  wsBacktrack (lazyCaptureUntil ']') p.1.reverse p.2

/-- Branch `Entering stage\s+(.+)` tried at one position. -/
def phaseBranch6 (s : Str) : Option Str :=
  (expectLit (lit "Entering stage") s).bind fun r1 =>
  wsPlusGreedyCapture r1

/-- All `_PHASE_PATTERN` branches at one position, in alternation order;
`atStart` selects whether the `^`-anchored branches participate. -/
def phaseAt (atStart : Bool) (s : Str) : Option Str :=
  match phaseBranch1 s with
  | some c => some c
  | none =>
  match (if atStart then phaseBranch2 s else none) with
  | some c => some c
  | none =>
  match (if atStart then phaseBranch3 s else none) with
  | some c => some c
  | none =>
  match phaseBranch4 s with
  | some c => some c
  | none =>
  match phaseBranch5 s with
  | some c => some c
  | none => phaseBranch6 s

/-- Embeds `_PHASE_PATTERN.search(line)`: leftmost matching position wins, and at
each position the alternatives are tried left to right.  Returns the
capturing group of the matching alternative. -/
def phaseSearchAux (atStart : Bool) : Str → Option Str
  | [] => none
  | s@(_ :: rest) =>
    match phaseAt atStart s with
    | some c => some c
    | none => phaseSearchAux false rest

def phaseSearch (line : Str) : Option Str := phaseSearchAux true line

/-- Python `str.strip()` (ASCII whitespace). -/
def pyStrip (s : Str) : Str :=
  ((s.dropWhile isWsCh).reverse.dropWhile isWsCh).reverse

-- ---------------------------------------------------------------------------
-- log_parser.py: stage indexing
-- ---------------------------------------------------------------------------

/-- Embeds `_build_stage_index`: one pass, `(line_idx, stripped capture)` per
matching line.  (The captures of `_PHASE_PATTERN` are non-empty, so the
source's `if g:` test always passes on the matched group.) -/
def _build_stage_index (lines : List Str) : List (Nat × Str) :=
  (lines.enum).filterMap fun p =>
    (phaseSearch p.2).map fun g => (p.1, pyStrip g)

/-- Embeds `_resolve_stage`: nearest mark at-or-before `line_idx`.  The source
uses `bisect_right` over the ascending positions; on the ascending index
that is exactly the last entry with position `≤ line_idx`. -/
def _resolve_stage (stage_index : List (Nat × Str)) (line_idx : Nat) : Str :=
  match (stage_index.filter fun p => p.1 ≤ line_idx).getLast? with
  | some p => p.2
  | none => []

-- ---------------------------------------------------------------------------
-- log_parser.py: line normalization (`_normalize_key`)
-- ---------------------------------------------------------------------------

def isAnsiBodyCh (c : Char) : Bool := isDigitCh c || c = ';'

/-- Fuel-indexed worker for `stripAnsi`; the fuel bounds the input length
so the recursion is structural (and kernel-reducible).  Whenever an ANSI
escape is removed, at least three characters are consumed, so fuel
`≥ length` always suffices. -/
def stripAnsiGo : Nat → Str → Str
  | _, [] => []
  | 0, s => s
  | fuel + 1, c :: rest =>
    if c = '\x1b' then
      match rest with
      | '[' :: r2 =>
        match r2.dropWhile isAnsiBodyCh with
        | 'm' :: r3 => stripAnsiGo fuel r3
        | _ => c :: stripAnsiGo fuel rest
      | _ => c :: stripAnsiGo fuel rest
    else c :: stripAnsiGo fuel rest

/-- Embeds `re.sub(r"\x1b\[[0-9;]*m", "", line)`: remove every ANSI escape,
scanning left to right.  (`m` is not in `[0-9;]`, so the greedy body run
is exact.) -/
def stripAnsi (s : Str) : Str := stripAnsiGo s.length s

/-- Embeds the ISO-timestamp `re.sub`: strip one prefix of the shape
four digits, a dash-or-slash separator, two digits, separator, two
digits, a whitespace-or-T separator, `hh:mm:ss`, an optional `.` or `,`,
a greedy digit run and a greedy whitespace run.  The optional `[.,]`, the greedy
`\d*` and the greedy `\s*` never backtrack because nothing follows them
in the pattern. -/
def stripIsoTs (s : Str) : Str :=
  match s with
  | y1 :: y2 :: y3 :: y4 :: p1 :: mo1 :: mo2 :: p2 :: d1 :: d2 :: sp :: h1 :: h2 :: c1 :: mi1 :: mi2 :: c2 :: e1 :: e2 :: rest =>
    if isDigitCh y1 && isDigitCh y2 && isDigitCh y3 && isDigitCh y4
        && (p1 = '-' || p1 = '/') && isDigitCh mo1 && isDigitCh mo2
        && (p2 = '-' || p2 = '/') && isDigitCh d1 && isDigitCh d2
        && (isWsCh sp || sp = 'T') && isDigitCh h1 && isDigitCh h2
        && (c1 = ':') && isDigitCh mi1 && isDigitCh mi2
        && (c2 = ':') && isDigitCh e1 && isDigitCh e2 then
      let r1 := match rest with
        | c :: t => if c = '.' || c = ',' then t else rest
        | [] => rest
      (r1.dropWhile isDigitCh).dropWhile isWsCh
    else s
  | _ => s

/-- Embeds `re.sub(r"^\[\d{2}/\d{2}/\d{2}\s+\d{2}:\d{2}:\d{2}\]\s*", "", line)`:
strip one bracketed timestamp prefix. -/
def stripBracketTs (s : Str) : Str :=
  match s with
  | '[' :: a1 :: a2 :: '/' :: b1 :: b2 :: '/' :: g1 :: g2 :: rest =>
    if isDigitCh a1 && isDigitCh a2 && isDigitCh b1 && isDigitCh b2
        && isDigitCh g1 && isDigitCh g2
        && decide (1 ≤ (rest.takeWhile isWsCh).length) then
      match rest.dropWhile isWsCh with
      | h1 :: h2 :: ':' :: mi1 :: mi2 :: ':' :: e1 :: e2 :: ']' :: tail =>
        if isDigitCh h1 && isDigitCh h2 && isDigitCh mi1 && isDigitCh mi2
            && isDigitCh e1 && isDigitCh e2 then
          tail.dropWhile isWsCh
        else s
      | _ => s
    else s
  | _ => s

/-- Embeds `_normalize_key`: ANSI strip, ISO timestamp strip, bracketed
timestamp strip, then `str.strip()`. -/
def _normalize_key (line : Str) : Str :=
  pyStrip (stripBracketTs (stripIsoTs (stripAnsi line)))

-- ---------------------------------------------------------------------------
-- log_parser.py: `_EXCEPTION_TOKEN_RE` and `_extract_exception_token`
-- ---------------------------------------------------------------------------

/-- One backtracking step of `\w+(?:Error|Exception|Failure)`: with the
`\w+` consuming `k` characters, try the three suffix alternatives in
order; the capture is the actual slice of the subject. -/
def tokB1Try (s : Str) (k : Nat) : Option Str :=
  let r := s.drop k
  if isPrefixCI (lit "error") r then some (s.take (k + 5))
  else if isPrefixCI (lit "exception") r then some (s.take (k + 9))
  else if isPrefixCI (lit "failure") r then some (s.take (k + 7))
  else none

/-- Greedy `\w+` backtracking, longest first. -/
def tokB1Desc (s : Str) : Nat → Option Str
  | 0 => none
  | k + 1 =>
    match tokB1Try s (k + 1) with
    | some c => some c
    | none => tokB1Desc s k

/-- Alternative 1 of `_EXCEPTION_TOKEN_RE`, `(\w+(?:Error|Exception|Failure))`,
tried at one position. -/
def tokenBranch1 (s : Str) : Option Str :=
  tokB1Desc s (s.takeWhile isWordCh).length

/-- A literal alternative with `\b` on both sides, tried at one position. -/
def tokLitBoth (needle : Str) (prev : Option Char) (s : Str) : Option Str :=
  if boundaryBefore prev && isPrefixCI needle s && boundaryAfter s needle.length
  then some (s.take needle.length) else none

/-- A literal alternative with only a leading `\b` (or none), tried at one
position. -/
def tokLitStart (needBound : Bool) (needle : Str) (prev : Option Char) (s : Str) : Option Str :=
  if (!needBound || boundaryBefore prev) && isPrefixCI needle s
  then some (s.take needle.length) else none

/-- All alternatives of `_EXCEPTION_TOKEN_RE` at one position, in order. -/
def tokenAt (prev : Option Char) (s : Str) : Option Str :=
  match tokenBranch1 s with
  | some c => some c
  | none =>
  match tokLitBoth (lit "FATAL") prev s with
  | some c => some c
  | none =>
  match tokLitBoth (lit "SIGKILL") prev s with
  | some c => some c
  | none =>
  match tokLitBoth (lit "SIGSEGV") prev s with
  | some c => some c
  | none =>
  match tokLitBoth (lit "core dumped") prev s with
  | some c => some c
  | none =>
  match tokLitBoth (lit "BUILD FAILURE") prev s with
  | some c => some c
  | none =>
  match tokLitStart false (lit "npm ERR!") prev s with
  | some c => some c
  | none =>
  match tokLitBoth (lit "Traceback") prev s with
  | some c => some c
  | none =>
  match tokLitStart true (lit "panic:") prev s with
  | some c => some c
  | none => tokLitStart true (lit "Caused by:") prev s

def tokenSearchAux (prev : Option Char) : Str → Option Str
  | [] => none
  | s@(c :: rest) =>
    match tokenAt prev s with
    | some t => some t
    | none => tokenSearchAux (some c) rest

/-- Embeds `_extract_exception_token`: the first matching alternative's capture
(the slice of the line actually matched); fallback `line[:60]`. -/
def _extract_exception_token (line : Str) : Str :=
  match tokenSearchAux none line with
  | some t => t
  | none => line.take 60

-- ---------------------------------------------------------------------------
-- log_parser.py: MatchedSection
-- ---------------------------------------------------------------------------

/-- Embeds the `MatchedSection` dataclass.  The source field `end` is
called `stop` here because `end` is a reserved word in Lean. -/
structure MatchedSection where
  tier : Str
  start : Nat
  stop : Nat
  key_lines : List Str
  phase : Str
  repeat_count : Nat
deriving DecidableEq

def MatchedSection.line_count (s : MatchedSection) : Nat := s.stop - s.start + 1

/-- Embeds `max(self.key_lines, key=len)` guarded by the emptiness check:
the first longest element (Python `max` keeps the earliest maximum). -/
def bestKeyLine : List Str → Str
  | [] => []
  | h :: t => t.foldl (fun b k => if b.length < k.length then k else b) h

/-- Embeds `MatchedSection.fingerprint`:
tier, exception token of the longest key line, stage, and the first 100
characters of that line, joined with `|`. -/
def MatchedSection.fingerprint (s : MatchedSection) : Str :=
  let best := bestKeyLine s.key_lines
  let token := _extract_exception_token best
  let msgPre := best.take 100
  s.tier ++ '|' :: (token ++ '|' :: (s.phase ++ '|' :: msgPre))

-- ---------------------------------------------------------------------------
-- log_parser.py: `_scan`
-- ---------------------------------------------------------------------------

/-- One element of the source's `raw_ranges` list. -/
structure RawRange where
  start : Nat
  stop : Nat
  tier : Str
  raw_line : Str
  idx : Nat
deriving DecidableEq

/-- Embeds one iteration of the source's greedy merge loop over
`raw_ranges` (mutation of `merged[-1]` becomes rebuilding the last
element). -/
def mergeStep (stage_index : List (Nat × Str)) (acc : List MatchedSection)
    (rr : RawRange) : List MatchedSection :=
  let key := _normalize_key rr.raw_line
  let phase := _resolve_stage stage_index rr.idx
  match acc.getLast? with
  | some prev =>
    if rr.start ≤ prev.stop + 1 then
      acc.dropLast ++ [{ prev with
        stop := max prev.stop rr.stop,
        key_lines := if key ∈ prev.key_lines then prev.key_lines
                     else prev.key_lines ++ [key],
        tier := if tierRank rr.tier < tierRank prev.tier then rr.tier else prev.tier,
        phase := if phase ≠ [] then phase else prev.phase }]
    else
      acc ++ [⟨rr.tier, rr.start, rr.stop, [key], phase, 1⟩]
  | none => acc ++ [⟨rr.tier, rr.start, rr.stop, [key], phase, 1⟩]

/-- Embeds `_scan`: classify every line, build context windows (clipped
to the log bounds; `max(0, i - R)` is Nat subtraction here), and merge
adjacent or overlapping windows greedily.  The early return on an empty
`match_data` coincides with folding over the empty list. -/
def _scan (lines : List Str) (stage_index : List (Nat × Str))
    (context_lines : Nat) : List MatchedSection :=
  let match_data := (lines.enum).filterMap fun p =>
    (_classify_line p.2).map fun t => (p.1, t, p.2)
  let raw_ranges : List RawRange := match_data.map fun m =>
    ⟨m.1 - context_lines, min (lines.length - 1) (m.1 + context_lines),
      m.2.1, m.2.2, m.1⟩
  raw_ranges.foldl (mergeStep stage_index) []

-- ---------------------------------------------------------------------------
-- log_parser.py: `_deduplicate`
-- ---------------------------------------------------------------------------

def modifyAt {α : Type} : List α → Nat → (α → α) → List α
  | [], _, _ => []
  | x :: xs, 0, f => f x :: xs
  | x :: xs, n + 1, f => x :: modifyAt xs n f

def bumpRepeat (s : MatchedSection) : MatchedSection :=
  { s with repeat_count := s.repeat_count + 1 }

/-- Index of the first entry with a given fingerprint: the `seen` dict of
the source maps a fingerprint to the index of its first occurrence in
`unique`, and since the fingerprints of stored sections never change
(bumping `repeat_count` does not affect the fingerprint), that lookup is
exactly this search. -/
def firstFpIdx : List MatchedSection → Str → Option Nat
  | [], _ => none
  | u :: us, fp =>
    if u.fingerprint = fp then some 0 else (firstFpIdx us fp).map (· + 1)

/-- Embeds the loop of `_deduplicate`. -/
def dedupGo : List MatchedSection → List MatchedSection → List MatchedSection
  | acc, [] => acc
  | acc, s :: rest =>
    match firstFpIdx acc s.fingerprint with
    | some i => dedupGo (modifyAt acc i bumpRepeat) rest
    | none => dedupGo (acc ++ [s]) rest

/-- Embeds `_deduplicate`: keep the first occurrence of each fingerprint,
counting repeats on it. -/
def _deduplicate (sections : List MatchedSection) : List MatchedSection :=
  dedupGo [] sections

-- ---------------------------------------------------------------------------
-- log_parser.py: budget allocation & formatting
-- ---------------------------------------------------------------------------

def natRepr (n : Nat) : Str := (Nat.repr n).data

/-- Embeds `_make_header` (the parameter `section` is a reserved word in
Lean, so it is `sec` here). -/
def _make_header (sec : MatchedSection) : Str :=
  let phase_tag :=
    if sec.phase ≠ [] then lit " | Stage: \"" ++ sec.phase ++ lit "\"" else []
  let repeat_tag :=
    if 1 < sec.repeat_count then
      lit " [repeated " ++ natRepr sec.repeat_count ++ lit " more times]"
    else []
  lit "--- " ++ sec.tier ++ lit " near line " ++ natRepr (sec.start + 1)
    ++ phase_tag ++ repeat_tag ++ lit " ---"

def omissionMarker (omitted : Nat) : Str :=
  lit "    [..." ++ natRepr omitted ++ lit " lines omitted...]"

/-- Embeds `_format_section`.  The omitted-line counts are Nat
subtractions; in every branch where they occur the snippet is longer
than what is kept, so they agree with the source's int arithmetic. -/
def _format_section (sec : MatchedSection) (lines : List Str)
    (max_lines : Option Nat) : Str :=
  let header := _make_header sec
  let snippet := (lines.drop sec.start).take (sec.stop + 1 - sec.start)
  let full_cost := snippet.length + 1
  match max_lines with
  | none => header ++ '\n' :: joinLines snippet
  | some m =>
    if full_cost ≤ m then header ++ '\n' :: joinLines snippet
    else if m < 3 then header
    else
      let available := m - 2
      if available < MIN_CLIP_LINES then
        let clipped := snippet.take (max 1 available)
        let omitted := snippet.length - clipped.length
        header ++ '\n' :: joinLines (clipped ++ [omissionMarker omitted])
      else
        let top_n := (available + 1) / 2
        let bottom_n := available - top_n
        let omitted := snippet.length - top_n - bottom_n
        let clipped := snippet.take top_n ++ [omissionMarker omitted]
          ++ (if 0 < bottom_n then snippet.drop (snippet.length - bottom_n) else [])
        header ++ '\n' :: joinLines clipped

structure FillSt where
  parts : List Str
  used : Nat
  exhausted : Bool
deriving DecidableEq

/-- Embeds `len(formatted.splitlines())`. -/
def costOf (f : Str) : Nat := (pySplitlines f).length

/-- Embeds the inner loop of `_budget_fill` for one tier: skip sections
of other tiers; when the remaining budget falls under the minimum
threshold set `exhausted` and stop; otherwise format against the
remaining budget and account the emitted line count. -/
def fillTierGo (lines : List Str) (budget : Nat) (tier : Str) :
    List MatchedSection → FillSt → FillSt
  | [], st => st
  | s :: rest, st =>
    if s.tier ≠ tier then fillTierGo lines budget tier rest st
    else if budget - st.used < MIN_CLIP_LINES + 1 then
      { st with exhausted := true }
    else
      let f := _format_section s lines (some (budget - st.used))
      fillTierGo lines budget tier rest ⟨st.parts ++ [f], st.used + costOf f, st.exhausted⟩

def tierOrderList : List Str := [TIER_CRITICAL, TIER_ERROR, TIER_WARNING]

/-- Embeds the outer loop of `_budget_fill` (`for tier in tier_order:
if exhausted: break; ...`). -/
def runTiers (lines : List Str) (budget : Nat) (sections : List MatchedSection) :
    List Str → FillSt → FillSt
  | [], st => st
  | t :: ts, st =>
    if st.exhausted then st
    else runTiers lines budget sections ts (fillTierGo lines budget t sections st)

/-- Embeds `_budget_fill`. -/
def _budget_fill (sections : List MatchedSection) (lines : List Str)
    (budget : Nat) : List Str :=
  (runTiers lines budget sections tierOrderList ⟨[], 0, false⟩).parts

-- ---------------------------------------------------------------------------
-- log_parser.py: public API
-- ---------------------------------------------------------------------------

/-- Embeds `truncate_tail`.  Note the Python quirk `lines[-max_lines:]`:
when `max_lines = 0` that slice is the whole list. -/
def truncate_tail (text : Str) (max_lines : Nat) : Str :=
  let lines := pySplitlines text
  if lines.length ≤ max_lines then text
  else
    let kept := if max_lines = 0 then lines else lines.drop (lines.length - max_lines)
    let notice := lit "[Log truncated: showing last " ++ natRepr max_lines
      ++ lit " of " ++ natRepr lines.length ++ lit " lines]" ++ ['\n']
    notice ++ joinLines kept

def summaryLine (total nC nE nW nD : Nat) : Str :=
  lit "[Log analysis: " ++ natRepr total ++ lit " total lines | "
    ++ natRepr nC ++ lit " critical, " ++ natRepr nE ++ lit " error, "
    ++ natRepr nW ++ lit " warning (unique matches) | "
    ++ natRepr nD ++ lit " duplicates collapsed]"

def headBlock (lines : List Str) : Str :=
  lit "--- Log start (first 5 lines) ---" ++ '\n' :: joinLines (lines.take LOG_HEAD_LINES)

def tailBlock (lines : List Str) : Str :=
  let tail := lines.drop (lines.length - LOG_TAIL_LINES)
  lit "--- Log end (last " ++ natRepr tail.length ++ lit " lines) ---"
    ++ '\n' :: joinLines tail

/-- Embeds the source's incrementally accumulated `fixed_cost`. -/
def fixedCost (lines : List Str) (include_head include_tail : Bool) : Nat :=
  3 + (if include_head then (pySplitlines (headBlock lines)).length else 0)
    + (if include_tail then (pySplitlines (tailBlock lines)).length else 0)

def noMatchNotice (max_lines : Nat) : Str :=
  lit "[No error patterns matched. Showing last " ++ natRepr max_lines
    ++ lit " lines of raw log]"

/-- Embeds the final hard-ceiling guard of `get_error_log`.  (The odd
characters in the notice reproduce the source file's literal bytes.) -/
def hardGuard (result : Str) (hard_limit : Nat) : Str :=
  let rl := pySplitlines result
  if hard_limit < rl.length then
    joinLines (rl.take hard_limit)
      ++ '\n' :: (lit "[Output truncated at " ++ natRepr hard_limit
        ++ lit " lines â€” hard safety limit]")
  else result

/-- Embeds `get_error_log`.  `section_budget` is a Nat subtraction: when
the source's int is negative the guard `< MIN_CLIP_LINES + 1` fires in
both versions, so the branch taken is the same. -/
def get_error_log (text : Str) (max_lines hard_limit : Nat)
    (include_head include_tail : Bool) : Str :=
  if (pyStrip text).length = 0 then lit "[Console log is empty]"
  else
    let lines := pySplitlines text
    let total_lines := lines.length
    let stage_index := _build_stage_index lines
    let sections := _scan lines stage_index CONTEXT_LINES
    if sections = [] then
      noMatchNotice max_lines ++ '\n' :: '\n' :: truncate_tail text max_lines
    else
      let deduped := _deduplicate sections
      let n_critical := deduped.countP (fun s => decide (s.tier = TIER_CRITICAL))
      let n_error := deduped.countP (fun s => decide (s.tier = TIER_ERROR))
      let n_warning := deduped.countP (fun s => decide (s.tier = TIER_WARNING))
      let n_dupes := (deduped.map (fun s => s.repeat_count - 1)).sum
      let summary := summaryLine total_lines n_critical n_error n_warning n_dupes
      let section_budget := max_lines - fixedCost lines include_head include_tail
      if section_budget < MIN_CLIP_LINES + 1 then
        summary ++ '\n' :: '\n' :: truncate_tail text max_lines
      else
        let error_parts := _budget_fill deduped lines section_budget
        if error_parts = [] then
          summary ++ '\n' :: '\n' :: truncate_tail text max_lines
        else
          let parts := [summary, []]
            ++ (if include_head then [headBlock lines, []] else [])
            ++ error_parts.flatMap (fun ep => [ep, []])
            ++ (if include_tail then [tailBlock lines] else [])
          hardGuard (joinLines parts) hard_limit

-- ---------------------------------------------------------------------------
-- junit_parser.py: data model
-- ---------------------------------------------------------------------------

/-- Model of an `xml.etree.ElementTree.Element`: tag, attribute dict
(association list with unique keys, as produced by the stdlib parser),
text, and child elements in document order. -/
structure XmlElem where
  tag : Str
  attrib : List (Str × Str)
  text : Option Str
  children : List XmlElem

/-- Embeds `Element.get(name, default)`. -/
def xmlGet (el : XmlElem) (name : Str) (dflt : Str) : Str :=
  match el.attrib.find? (fun p => decide (p.1 = name)) with
  | some p => p.2
  | none => dflt

/-- Embeds `Element.find(tag)`: first child with the tag. -/
def xmlFind (el : XmlElem) (tag : Str) : Option XmlElem :=
  el.children.find? (fun c => decide (c.tag = tag))

def MAX_DETAIL_CHARS : Nat := 5000

def MAX_OUTPUT_CHARS : Nat := 2000

/-- Embeds `_ASSERTION_TYPE_RE.search` as a Boolean. -/
def matchAssertionType (s : Str) : Bool :=
  searchCI (lit "Assertion") s || searchCI (lit "ComparisonFailure") s
    || searchCI (lit "ExpectationFailure") s

/-- Embeds `_EXCEPTION_TYPE_RE.search` as a Boolean. -/
def matchExceptionType (s : Str) : Bool :=
  searchCI (lit "Exception") s || searchCI (lit "Error") s
    || searchCI (lit "Timeout") s || searchCI (lit "Refused") s

/-- Embeds `_EXCEPTION_MSG_RE.search` as a Boolean
(`\w+Exception\b|\w+Error\b|Timeout\b|Refused\b`, case-insensitive). -/
def matchExceptionMsg (s : Str) : Bool :=
  searchWordPrefixedCI (lit "Exception") s || searchWordPrefixedCI (lit "Error") s
    || searchSuffixBoundCI (lit "Timeout") s || searchSuffixBoundCI (lit "Refused") s

/-- Embeds `_infer_kind`: type attribute first (when non-empty), then the
combined `type message` text, then the element-tag default. -/
def _infer_kind (type_attr message element_tag : Str) : Str :=
  if type_attr ≠ [] && matchAssertionType type_attr then lit "assertion"
  else if type_attr ≠ [] && matchExceptionType type_attr then lit "exception"
  else
    let combined := type_attr ++ ' ' :: message
    if matchAssertionType combined then lit "assertion"
    else if matchExceptionMsg combined then lit "exception"
    else if element_tag = lit "failure" then lit "assertion" else lit "exception"

/-- Embeds `_element_text`: text of the first child with the tag, capped;
empty when the child is absent or has falsy text. -/
def _element_text (parent : XmlElem) (tag : Str) (max_chars : Nat) : Str :=
  match xmlFind parent tag with
  | none => []
  | some el =>
    match el.text with
    | none => []
    | some t => t.take max_chars

def parseDigitsVal : Str → Nat
  | [] => 0
  | c :: rest => parseDigitsVal rest + c.toNat % 48 * 10 ^ rest.length

/-- Decimal-string recognizer used by the numeric fallbacks: optional
surrounding whitespace, optional sign, digits.  (Python `int()` also
accepts underscore separators; those never occur in the inputs
considered.) -/
def pyParseInt (s : Str) : Option Int :=
  let t := pyStrip s
  match t with
  | '-' :: ds => if ds ≠ [] && ds.all isDigitCh then some (-(parseDigitsVal ds : Int)) else none
  | '+' :: ds => if ds ≠ [] && ds.all isDigitCh then some (parseDigitsVal ds : Int) else none
  | ds => if ds ≠ [] && ds.all isDigitCh then some (parseDigitsVal ds : Int) else none

/-- Decimal float recognizer for `float()` on the `time` attributes:
optional sign, digits with an optional fractional part.  (Python also
accepts exponents and inf/nan; irrelevant to the claims.) -/
def pyParseFloat (s : Str) : Option ℚ :=
  let t := pyStrip s
  let core : Str → Option ℚ := fun u =>
    let ip := u.takeWhile isDigitCh
    let rest := u.dropWhile isDigitCh
    match rest with
    | [] => if ip ≠ [] then some ((parseDigitsVal ip : ℚ)) else none
    | '.' :: fr =>
      if fr.all isDigitCh && (ip ≠ [] || fr ≠ []) then
        some ((parseDigitsVal ip : ℚ) + (parseDigitsVal fr : ℚ) / (10 ^ fr.length : ℚ))
      else none
    | _ => none
  match t with
  | '-' :: u => (core u).map (fun q => -q)
  | '+' :: u => core u
  | u => core u

/-- Embeds `_safe_int`: zero on absence or parse failure. -/
def _safe_int (val : Option Str) : Int :=
  match val with
  | none => 0
  | some s => match pyParseInt s with
    | some n => n
    | none => 0

/-- Embeds `_safe_float`: zero on absence or parse failure, otherwise
`round(x, 3)` (modelled as exact rational rounding; Python rounds the
nearest float half-to-even, which agrees on the inputs considered). -/
def _safe_float (val : Option Str) : ℚ :=
  match val with
  | none => 0
  | some s => match pyParseFloat s with
    | some q => (round (q * 1000) : ℚ) / 1000
    | none => 0

/-- Embeds `Element.get(name)` with a `None` default, feeding `_safe_*`. -/
def xmlGetOpt (el : XmlElem) (name : Str) : Option Str :=
  (el.attrib.find? (fun p => decide (p.1 = name))).map (·.2)

structure JCase where
  name : Str
  class_name : Str
  time_s : ℚ
  status : Str
  kind : Str
  message : Str
  detail : Str
  stdout : Str
  stderr : Str
  skip_reason : Str

structure JSuite where
  suite_name : Str
  suite_time_s : ℚ
  suite_tests : Int
  suite_failures : Int
  suite_errors : Int
  suite_skipped : Int
  suite_stdout : Str
  suite_stderr : Str
  cases : List JCase

/-- Embeds `_parse_case`. -/
def _parse_case (case_el : XmlElem) : JCase :=
  let failure_el := xmlFind case_el (lit "failure")
  let error_el := xmlFind case_el (lit "error")
  let skipped_el := xmlFind case_el (lit "skipped")
  let smdk : Str × Str × Str :=
    match failure_el with
    | some fe =>
      (lit "failed", xmlGet fe (lit "message") [],
        _infer_kind (xmlGet fe (lit "type") []) (xmlGet fe (lit "message") []) (lit "failure"))
    | none =>
      match error_el with
      | some ee =>
        (lit "errored", xmlGet ee (lit "message") [],
          _infer_kind (xmlGet ee (lit "type") []) (xmlGet ee (lit "message") []) (lit "error"))
      | none =>
        match skipped_el with
        | some se => (lit "skipped", xmlGet se (lit "message") [], lit "skipped")
        | none => (lit "passed", [], lit "passed")
  let detail : Str :=
    match failure_el with
    | some fe => (match fe.text with | some t => t.take MAX_DETAIL_CHARS | none => [])
    | none =>
      match error_el with
      | some ee => (match ee.text with | some t => t.take MAX_DETAIL_CHARS | none => [])
      | none => []
  { name := xmlGet case_el (lit "name") [],
    class_name := xmlGet case_el (lit "classname") [],
    time_s := _safe_float (xmlGetOpt case_el (lit "time")),
    status := smdk.1,
    kind := smdk.2.2,
    message := smdk.2.1,
    detail := detail,
    stdout := _element_text case_el (lit "system-out") MAX_OUTPUT_CHARS,
    stderr := _element_text case_el (lit "system-err") MAX_OUTPUT_CHARS,
    skip_reason := if smdk.1 = lit "skipped" then smdk.2.1 else [] }

/-- Embeds `_parse_suite`. -/
def _parse_suite (suite_el : XmlElem) : JSuite :=
  { suite_name := xmlGet suite_el (lit "name") [],
    suite_time_s := _safe_float (xmlGetOpt suite_el (lit "time")),
    suite_tests := _safe_int (xmlGetOpt suite_el (lit "tests")),
    suite_failures := _safe_int (xmlGetOpt suite_el (lit "failures")),
    suite_errors := _safe_int (xmlGetOpt suite_el (lit "errors")),
    suite_skipped := _safe_int (xmlGetOpt suite_el (lit "skipped")),
    suite_stdout := _element_text suite_el (lit "system-out") MAX_OUTPUT_CHARS,
    suite_stderr := _element_text suite_el (lit "system-err") MAX_OUTPUT_CHARS,
    cases := (suite_el.children.filter (fun c => decide (c.tag = lit "testcase"))).map _parse_case }

/-- Embeds `parse_junit_xml`.  The call to the standard library's
`ET.fromstring` is external to this repository; it is modelled by the
`Option XmlElem` argument, `none` standing for XML that raises
`ET.ParseError` (which the source catches and converts to `None`). -/
def parse_junit_xml (parsed : Option XmlElem) : Option (List JSuite) :=
  match parsed with
  | none => none
  | some root =>
    if root.tag = lit "testsuites" then
      some (((root.children).filter (fun e => decide (e.tag = lit "testsuite"))).map _parse_suite)
    else if root.tag = lit "testsuite" then
      some [_parse_suite root]
    else none

-- ---------------------------------------------------------------------------
-- junit_parser.py: blast-radius detection
-- ---------------------------------------------------------------------------

structure BlastRadius where
  suite_name : Str
  total_failures : Nat
  shared_count : Nat
  shared_message : Str
  suite_stderr : Str
  affected_tests : List Str
  affected_qualified_names : List Str
deriving DecidableEq

/-- Embeds `case["message"][:100] or case["detail"][:100] or "(no message)"`. -/
def bucketKey (c : JCase) : Str :=
  if c.message.take 100 ≠ [] then c.message.take 100
  else if c.detail.take 100 ≠ [] then c.detail.take 100
  else lit "(no message)"

/-- Embeds `buckets.setdefault(key, []).append(case)` on an
insertion-ordered association list (Python dicts preserve insertion
order). -/
def addToBuckets : List (Str × List JCase) → Str → JCase → List (Str × List JCase)
  | [], key, c => [(key, [c])]
  | b :: bs, key, c =>
    if b.1 = key then (b.1, b.2 ++ [c]) :: bs
    else b :: addToBuckets bs key c

/-- Embeds `detect_blast_radius`.  The float test
`len(cases) / len(failing) >= threshold` is modelled exactly with the
threshold as the fraction `thrNum / thrDen` and cross multiplication
(the denominators are positive); at the default threshold `0.6 = 3 / 5`
and the integer counts involved this agrees with the float comparison. -/
def detect_blast_radius (suites : List JSuite) (thrNum thrDen : Nat) : List BlastRadius :=
  suites.flatMap fun suite =>
    let failing := suite.cases.filter fun c =>
      decide (c.status = lit "failed") || decide (c.status = lit "errored")
    if failing.length < 3 then []
    else
      let buckets := failing.foldl (fun bs c => addToBuckets bs (bucketKey c) c) []
      buckets.filterMap fun bk =>
        if 3 ≤ bk.2.length && thrNum * failing.length ≤ thrDen * bk.2.length then
          some { suite_name := suite.suite_name,
                 total_failures := failing.length,
                 shared_count := bk.2.length,
                 shared_message := bk.1,
                 suite_stderr := suite.suite_stderr,
                 affected_tests := bk.2.map (·.name),
                 affected_qualified_names := bk.2.map fun c =>
                   if c.class_name ≠ [] then c.class_name ++ '.' :: c.name else c.name }
        else none

-- ---------------------------------------------------------------------------
-- Derived notions used by the claims
-- ---------------------------------------------------------------------------

/-- Exception token of a section's most informative key line, as used by
the fingerprint. -/
def tokenOf (s : MatchedSection) : Str :=
  _extract_exception_token (bestKeyLine s.key_lines)

/-- Reset a section's repeat counter (used to compare deduplicated output
with its input up to repeat counting). -/
def resetRepeat (s : MatchedSection) : MatchedSection :=
  { s with repeat_count := 1 }

/-- Modelled from the spec: the kind-classification cascade as the claim
states it — the combined type+message text is re-checked against *the
same patterns* as the type attribute (the source instead checks the
combined text against the narrower `_EXCEPTION_MSG_RE`). -/
def specInferKindClaim (type_attr message element_tag : Str) : Str :=
  if type_attr ≠ [] && matchAssertionType type_attr then lit "assertion"
  else if type_attr ≠ [] && matchExceptionType type_attr then lit "exception"
  else
    let combined := type_attr ++ ' ' :: message
    if matchAssertionType combined then lit "assertion"
    else if matchExceptionType combined then lit "exception"
    else if element_tag = lit "failure" then lit "assertion" else lit "exception"

/-- The shape matched by the ISO-timestamp strip: the 19-character core
`dddd-dd-dd dd:dd:dd` (with `-` or `/` date separators and a
whitespace-or-`T` date/time separator). -/
def IsoCore (c : Str) : Prop :=
  ∃ y1 y2 y3 y4 p1 m1 m2 p2 d1 d2 sp h1 h2 n1 n2 e1 e2 : Char,
    c = [y1, y2, y3, y4, p1, m1, m2, p2, d1, d2, sp, h1, h2, ':', n1, n2, ':', e1, e2] ∧
    (isDigitCh y1 && isDigitCh y2 && isDigitCh y3 && isDigitCh y4
      && (p1 = '-' || p1 = '/') && isDigitCh m1 && isDigitCh m2
      && (p2 = '-' || p2 = '/') && isDigitCh d1 && isDigitCh d2
      && (isWsCh sp || sp = 'T') && isDigitCh h1 && isDigitCh h2
      && isDigitCh n1 && isDigitCh n2 && isDigitCh e1 && isDigitCh e2) = true

/-- The optional `[.,]?\d*` part after the ISO core. -/
def FracOk (frac : Str) : Prop :=
  frac = [] ∨ (frac.all isDigitCh = true ∧ frac ≠ [])
    ∨ (∃ ds, (frac = '.' :: ds ∨ frac = ',' :: ds) ∧ ds.all isDigitCh = true)

/-- A full ISO-style timestamp prefix as matched (greedily) by the
normalizer. -/
def IsIsoTs (ts : Str) : Prop :=
  ∃ core frac trail, ts = core ++ frac ++ trail ∧ IsoCore core ∧ FracOk frac
    ∧ trail.all isWsCh = true

/-- A full bracketed `[dd/dd/dd hh:mm:ss]` timestamp prefix (with its
trailing whitespace) as matched by the normalizer. -/
def IsBracketTs (ts : Str) : Prop :=
  ∃ a1 a2 b1 b2 g1 g2 h1 h2 n1 n2 e1 e2 : Char, ∃ ws trail : Str,
    ts = '[' :: a1 :: a2 :: '/' :: b1 :: b2 :: '/' :: g1 :: g2 :: (ws
      ++ h1 :: h2 :: ':' :: n1 :: n2 :: ':' :: e1 :: e2 :: ']' :: trail) ∧
    (isDigitCh a1 && isDigitCh a2 && isDigitCh b1 && isDigitCh b2
      && isDigitCh g1 && isDigitCh g2 && isDigitCh h1 && isDigitCh h2
      && isDigitCh n1 && isDigitCh n2 && isDigitCh e1 && isDigitCh e2) = true ∧
    ws.all isWsCh = true ∧ ws ≠ [] ∧ trail.all isWsCh = true

/-- The remainder after a stripped timestamp may not begin with a
character the greedy timestamp match could also have consumed (digits,
whitespace, `.`/`,`), nor open a bracketed timestamp of its own. -/
def HeadSafe (l : Str) : Prop :=
  ∀ h, l.head? = some h →
    isDigitCh h = false ∧ isWsCh h = false ∧ h ≠ '.' ∧ h ≠ ',' ∧ h ≠ '['

-- ---------------------------------------------------------------------------
-- Concrete inputs used by counterexamples and witnesses
-- ---------------------------------------------------------------------------

def c1text : Str := joinLines (List.replicate 10 (lit "."))

def c2text : Str := lit "FATAL: boom"

def mkFailCase (nm msg : String) : JCase :=
  ⟨lit nm, lit "C", 0, lit "failed", lit "exception", lit msg, [], [], [], []⟩

def c3suite : JSuite :=
  ⟨lit "S", 0, 8, 8, 0, 0, [], lit "ERRLOG",
    [mkFailCase "t1" "Connection timeout after 30000ms",
     mkFailCase "t2" "Connection timeout after 30000ms",
     mkFailCase "t3" "Connection timeout after 30000ms",
     mkFailCase "t4" "Connection timeout after 30000ms",
     mkFailCase "t5" "Connection timeout after 30000ms",
     mkFailCase "t6" "Connection timeout after 30000ms",
     mkFailCase "o1" "Foo",
     mkFailCase "o2" "Bar"]⟩

def c4sec : MatchedSection := ⟨lit "ERROR", 0, 19, [lit "e"], [], 1⟩

def c4lines : List Str := List.replicate 20 (lit "x")

def c5lines : List Str :=
  [lit "123 ERROR x"] ++ List.replicate 21 (lit ".")
    ++ [lit "2024-01-02T03:04:05123 ERROR x"]

def c5secs : List MatchedSection :=
  _scan c5lines (_build_stage_index c5lines) CONTEXT_LINES

def c5wsec1 : MatchedSection :=
  ⟨lit "ERROR", 0, 10, [_normalize_key ('\x1b' :: lit "[31mERROR x")], [], 1⟩

def c5wsec2 : MatchedSection :=
  ⟨lit "ERROR", 30, 40, [_normalize_key (lit "2024-01-02 03:04:05 ERROR x")], [], 1⟩

def c6lines : List Str :=
  [lit "[Stage: error|error|error]"] ++ List.replicate 21 (lit ".")
    ++ [lit "error"] ++ List.replicate 21 (lit ".")
    ++ [lit "[Stage: error]"] ++ List.replicate 21 (lit ".")
    ++ [lit "error|error"]

def c6secs : List MatchedSection :=
  _scan c6lines (_build_stage_index c6lines) CONTEXT_LINES

def c6wsec1 : MatchedSection :=
  ⟨lit "ERROR", 0, 10, [lit "NullPointerException: x"], lit "Build", 1⟩

def c6wsec2 : MatchedSection :=
  ⟨lit "ERROR", 30, 40, [lit "AssertionError: x"], lit "Build", 1⟩

def c7wsec : MatchedSection := ⟨lit "WARNING", 0, 0, [lit "w"], [], 1⟩

def c7csec : MatchedSection := ⟨lit "CRITICAL", 0, 19, [lit "c"], [], 1⟩

def c7esec : MatchedSection := ⟨lit "ERROR", 0, 0, [lit "e"], [], 1⟩

def c7lines : List Str := List.replicate 20 (lit "x")

def c10sec : MatchedSection := ⟨lit "ERROR", 0, 0, [lit "x"], [], 2⟩

def c9root : XmlElem :=
  ⟨lit "testsuite", [(lit "name", lit "S")], none,
    [⟨lit "testcase", [(lit "name", lit "t")], none, []⟩]⟩

/-- The snippet of raw lines a section covers (`lines[start : end+1]`). -/
def snippetOf (sec : MatchedSection) (lines : List Str) : List Str :=
  (lines.drop sec.start).take (sec.stop + 1 - sec.start)

-- ===========================  THEOREMS  ===========================

theorem charSplit_ne_nil (s : Str) : charSplit s ≠ [] := by
  induction s with
  | nil => simp [charSplit]
  | cons c rest ih =>
    simp only [charSplit]
    by_cases h : c = '\n'
    · simp [h]
    · simp only [if_neg h]
      cases hc : charSplit rest with
      | nil => simp
      | cons a t => simp

theorem charSplit_append_cons (a b : Str) :
    charSplit (a ++ '\n' :: b) = charSplit a ++ charSplit b := by
  induction a with
  | nil => simp [charSplit]
  | cons c rest ih =>
    cases hc : charSplit rest with
    | nil => exact absurd hc (charSplit_ne_nil rest)
    | cons x t =>
      show charSplit (c :: (rest ++ '\n' :: b)) = charSplit (c :: rest) ++ charSplit b
      by_cases h : c = '\n'
      · simp [charSplit, h, ih]
      · simp only [charSplit, if_neg h]
        rw [ih, hc]
        simp

theorem noNl_of_mem_charSplit (s : Str) : ∀ l ∈ charSplit s, '\n' ∉ l := by
  induction s with
  | nil => intro l hl; simp [charSplit] at hl; simp [hl]
  | cons c rest ih =>
    intro l hl
    simp only [charSplit] at hl
    by_cases h : c = '\n'
    · simp [h] at hl
      rcases hl with h1 | h1
      · simp [h1]
      · exact ih l h1
    · simp only [if_neg h] at hl
      cases hc : charSplit rest with
      | nil => exact absurd hc (charSplit_ne_nil rest)
      | cons x t =>
        rw [hc] at hl
        rcases List.mem_cons.mp hl with h1 | h1
        · subst h1
          intro hmem
          rcases List.mem_cons.mp hmem with h2 | h2
          · exact h h2.symm
          · exact ih x (hc ▸ List.mem_cons_self x t) h2
        · exact ih l (hc ▸ List.mem_cons_of_mem x h1)

theorem charSplit_of_noNl (l : Str) (h : '\n' ∉ l) : charSplit l = [l] := by
  induction l with
  | nil => simp [charSplit]
  | cons c rest ih =>
    have hc : c ≠ '\n' := by intro he; exact h (he ▸ List.mem_cons_self c rest)
    have hr : '\n' ∉ rest := fun hm => h (List.mem_cons_of_mem c hm)
    simp [charSplit, hc, ih hr]

theorem charSplit_joinLines (L : List Str) (hne : L ≠ []) :
    charSplit (joinLines L) = L.flatMap charSplit := by
  induction L with
  | nil => exact absurd rfl hne
  | cons l rest ih =>
    cases rest with
    | nil => simp [joinLines, List.flatMap]
    | cons m t =>
      have : joinLines (l :: m :: t) = l ++ '\n' :: joinLines (m :: t) := rfl
      rw [this, charSplit_append_cons, ih (by simp)]
      simp [List.flatMap]

theorem charSplit_joinLines_noNl (L : List Str) (hne : L ≠ [])
    (h : ∀ l ∈ L, '\n' ∉ l) : charSplit (joinLines L) = L := by
  rw [charSplit_joinLines L hne]
  induction L with
  | nil => simp
  | cons l rest ih =>
    simp only [List.flatMap_cons]
    rw [charSplit_of_noNl l (h l (List.mem_cons_self l rest))]
    cases rest with
    | nil => simp
    | cons m t =>
      rw [ih (by simp) (fun x hx => h x (List.mem_cons_of_mem l hx))]
      simp

theorem dropLastIfEmpty_length_le (L : List Str) :
    (dropLastIfEmpty L).length ≤ L.length := by
  unfold dropLastIfEmpty
  split
  · simp [List.length_dropLast]
  · exact le_refl _

theorem length_le_dropLastIfEmpty (L : List Str) :
    L.length ≤ (dropLastIfEmpty L).length + 1 := by
  unfold dropLastIfEmpty
  split
  · rename_i hlast
    have hne : L ≠ [] := by intro he; simp [he] at hlast
    have h1 : 1 ≤ L.length := List.length_pos.mpr hne
    simp [List.length_dropLast]
    omega
  · omega

theorem dropLastIfEmpty_subset (L : List Str) :
    ∀ l ∈ dropLastIfEmpty L, l ∈ L := by
  intro l hl
  unfold dropLastIfEmpty at hl
  split at hl
  · exact List.dropLast_subset _ hl
  · exact hl

theorem mem_dropLastIfEmpty_of_ne (L : List Str) (l : Str) (hl : l ∈ L)
    (hne : l ≠ []) : l ∈ dropLastIfEmpty L := by
  unfold dropLastIfEmpty
  split
  · rename_i hlast
    have hLne : L ≠ [] := by intro he; simp [he] at hlast
    have := List.dropLast_append_getLast hLne
    have hgl : L.getLast hLne = [] := by
      have := List.getLast?_eq_getLast L hLne
      rw [this] at hlast
      exact (Option.some_injective _ hlast).symm ▸ rfl
    rw [← this] at hl
    rcases List.mem_append.mp hl with h1 | h1
    · exact h1
    · simp at h1
      rw [hgl] at h1
      exact absurd h1 hne
  · exact hl

theorem dropLastIfEmpty_cases (L : List Str) :
    L = dropLastIfEmpty L ∨ L = dropLastIfEmpty L ++ [[]] := by
  unfold dropLastIfEmpty
  split
  · rename_i hlast
    right
    have hLne : L ≠ [] := by intro he; simp [he] at hlast
    have h1 := List.dropLast_append_getLast hLne
    have hgl : L.getLast hLne = [] := by
      have h2 := List.getLast?_eq_getLast L hLne
      rw [h2] at hlast
      exact (Option.some_injective _ hlast).symm ▸ rfl
    nth_rewrite 1 [← h1]
    rw [hgl]
  · left; rfl

theorem pySplitlines_noNl (s : Str) : ∀ l ∈ pySplitlines s, '\n' ∉ l := by
  intro l hl
  exact noNl_of_mem_charSplit s l (dropLastIfEmpty_subset _ l hl)

theorem digitChar_ne_nl (n : Nat) : Nat.digitChar n ≠ '\n' := by
  by_cases h0 : n = 0
  · subst h0; decide
  by_cases h1 : n = 1
  · subst h1; decide
  by_cases h2 : n = 2
  · subst h2; decide
  by_cases h3 : n = 3
  · subst h3; decide
  by_cases h4 : n = 4
  · subst h4; decide
  by_cases h5 : n = 5
  · subst h5; decide
  by_cases h6 : n = 6
  · subst h6; decide
  by_cases h7 : n = 7
  · subst h7; decide
  by_cases h8 : n = 8
  · subst h8; decide
  by_cases h9 : n = 9
  · subst h9; decide
  by_cases ha : n = 10
  · subst ha; decide
  by_cases hb : n = 11
  · subst hb; decide
  by_cases hc : n = 12
  · subst hc; decide
  by_cases hd : n = 13
  · subst hd; decide
  by_cases he : n = 14
  · subst he; decide
  by_cases hf : n = 15
  · subst hf; decide
  simp [Nat.digitChar, h0, h1, h2, h3, h4, h5, h6, h7, h8, h9, ha, hb, hc, hd, he, hf]

theorem toDigitsCore_noNl (b fuel n : Nat) (ds : List Char)
    (h : ∀ c ∈ ds, c ≠ '\n') : ∀ c ∈ Nat.toDigitsCore b fuel n ds, c ≠ '\n' := by
  induction fuel generalizing n ds with
  | zero => simpa [Nat.toDigitsCore] using h
  | succ f ih =>
    intro c hc
    simp only [Nat.toDigitsCore] at hc
    split at hc
    · rcases List.mem_cons.mp hc with h1 | h1
      · exact h1 ▸ digitChar_ne_nl _
      · exact h c h1
    · refine ih _ _ ?_ c hc
      intro x hx
      rcases List.mem_cons.mp hx with h1 | h1
      · exact h1 ▸ digitChar_ne_nl _
      · exact h x h1

theorem natRepr_noNl (n : Nat) : '\n' ∉ natRepr n := by
  intro hmem
  have h1 : ∀ c ∈ Nat.toDigits 10 n, c ≠ '\n' :=
    toDigitsCore_noNl 10 (n + 1) n [] (by simp)
  have h2 : natRepr n = Nat.toDigits 10 n := rfl
  rw [h2] at hmem
  exact h1 '\n' hmem rfl

theorem noNl_append {a b : Str} (ha : '\n' ∉ a) (hb : '\n' ∉ b) :
    '\n' ∉ a ++ b := by
  intro h
  rcases List.mem_append.mp h with h1 | h1
  · exact ha h1
  · exact hb h1

theorem noNl_take {a : Str} (n : Nat) (ha : '\n' ∉ a) : '\n' ∉ a.take n :=
  fun h => ha (List.mem_of_mem_take h)

/-- A newline-free prefix of a string survives into the first chunk of
its line split. -/
theorem isPrefix_head_charSplit (p s : Str) (hp : p <+: s) (hnl : '\n' ∉ p) :
    ∃ h t, charSplit s = h :: t ∧ p <+: h := by
  induction p generalizing s with
  | nil =>
    cases hc : charSplit s with
    | nil => exact absurd hc (charSplit_ne_nil s)
    | cons h t => exact ⟨h, t, rfl, List.nil_prefix⟩
  | cons c rest ih =>
    obtain ⟨u, hu⟩ := hp
    subst hu
    have hcne : c ≠ '\n' := fun he => hnl (he ▸ List.mem_cons_self c rest)
    have hrest : '\n' ∉ rest := fun hm => hnl (List.mem_cons_of_mem c hm)
    obtain ⟨h, t, hsplit, hpre⟩ := ih (rest ++ u) ⟨u, rfl⟩ hrest
    refine ⟨c :: h, t, ?_, ?_⟩
    · show charSplit (c :: (rest ++ u)) = (c :: h) :: t
      simp only [charSplit, if_neg hcne, hsplit]
    · exact (List.prefix_cons_inj c).mpr hpre

/-- Splitting `a ++ '|' :: x` at the first `|` is unambiguous when `a` is
`|`-free. -/
theorem pipe_split_inj (a b x y : Str) (ha : '|' ∉ a) (hb : '|' ∉ b)
    (h : a ++ '|' :: x = b ++ '|' :: y) : a = b ∧ x = y := by
  induction a generalizing b with
  | nil =>
    cases b with
    | nil => simpa using h
    | cons d bs =>
      simp only [List.nil_append, List.cons_append, List.cons.injEq] at h
      exact absurd (h.1 ▸ List.mem_cons_self d bs) (h.1 ▸ hb)
  | cons c as_ ih =>
    cases b with
    | nil =>
      simp only [List.cons_append, List.nil_append, List.cons.injEq] at h
      exact absurd (h.1 ▸ List.mem_cons_self c as_) (h.1 ▸ ha)
    | cons d bs =>
      simp only [List.cons_append, List.cons.injEq] at h
      have h1 : '|' ∉ as_ := fun hm => ha (List.mem_cons_of_mem c hm)
      have h2 : '|' ∉ bs := fun hm => hb (List.mem_cons_of_mem d hm)
      obtain ⟨he1, he2⟩ := ih bs h1 h2 h.2
      exact ⟨by rw [h.1, he1], he2⟩

-- ---------------------------------------------------------------------------
-- C3: blast radius on the 6-of-8 shared-message suite
-- ---------------------------------------------------------------------------

/-- C3, counterexample: in a suite with 8 failing cases of which 6 share
the message "Connection timeout after 30000ms" and 2 carry other
distinct messages, `detect_blast_radius` at the default threshold 0.6
returns exactly one record with `shared_count = 6` — but its
`total_failures` is 8 (the number of failing cases), not 6 as the claim
states. -/
theorem c3_blast_radius_counterexample :
    (c3suite.cases.countP fun c =>
        decide (c.status = lit "failed") || decide (c.status = lit "errored")) = 8
    ∧ (c3suite.cases.countP fun c =>
        decide (c.message.take 100 = lit "Connection timeout after 30000ms")) = 6
    ∧ ((detect_blast_radius [c3suite] 3 5).map fun b =>
        (b.shared_count, b.total_failures)) = [(6, 8)]
    ∧ ((6 : Nat), (8 : Nat)) ≠ ((6 : Nat), (6 : Nat)) := by
  decide

/-- C3, amended: same setting, but the single returned record carries
`total_failures = 8` (all failing cases of the suite), `shared_count = 6`
and the six sharing test names. -/
theorem c3_blast_radius_amended :
    detect_blast_radius [c3suite] 3 5 =
      [⟨lit "S", 8, 6, lit "Connection timeout after 30000ms", lit "ERRLOG",
        [lit "t1", lit "t2", lit "t3", lit "t4", lit "t5", lit "t6"],
        [lit "C.t1", lit "C.t2", lit "C.t3", lit "C.t4", lit "C.t5", lit "C.t6"]⟩] := by
  decide

-- ---------------------------------------------------------------------------
-- C8: kind classification cascade
-- ---------------------------------------------------------------------------

/-- C8, counterexample: the claim says the combined type+message text is
checked against the same exception pattern as the type attribute; on the
message "Error occurred" with an empty type attribute that algorithm
yields "exception" (the combined text contains "Error"), while the
source checks the combined text against the narrower `_EXCEPTION_MSG_RE`
(which needs `\w+Error`) and falls through to the `<failure>` tag
default "assertion". -/
theorem c8_infer_kind_counterexample :
    _infer_kind [] (lit "Error occurred") (lit "failure") = lit "assertion"
    ∧ specInferKindClaim [] (lit "Error occurred") (lit "failure") = lit "exception"
    ∧ lit "assertion" ≠ lit "exception" := by
  decide

/-- C8, amended: the cascade consults the type attribute against the
assertion pattern and then the exception pattern, then the combined
type+message text against the assertion pattern and the narrower
message-level exception pattern (`\w+Exception\b|\w+Error\b|Timeout\b|Refused\b`),
and finally defaults by element tag; in particular a
`junit.framework.AssertionError` failure is an assertion and a
`java.io.IOException` failure is an exception despite the failure tag. -/
theorem c8_infer_kind_amended :
    (∀ t m g : Str, t ≠ [] → matchAssertionType t = true →
      _infer_kind t m g = lit "assertion")
    ∧ (∀ t m g : Str, t ≠ [] → matchAssertionType t = false →
        matchExceptionType t = true → _infer_kind t m g = lit "exception")
    ∧ (∀ t m g : Str,
        (t = [] ∨ (matchAssertionType t = false ∧ matchExceptionType t = false)) →
        matchAssertionType (t ++ ' ' :: m) = true → _infer_kind t m g = lit "assertion")
    ∧ (∀ t m g : Str,
        (t = [] ∨ (matchAssertionType t = false ∧ matchExceptionType t = false)) →
        matchAssertionType (t ++ ' ' :: m) = false →
        matchExceptionMsg (t ++ ' ' :: m) = true → _infer_kind t m g = lit "exception")
    ∧ (∀ t m g : Str,
        (t = [] ∨ (matchAssertionType t = false ∧ matchExceptionType t = false)) →
        matchAssertionType (t ++ ' ' :: m) = false →
        matchExceptionMsg (t ++ ' ' :: m) = false →
        _infer_kind t m g = (if g = lit "failure" then lit "assertion" else lit "exception"))
    ∧ _infer_kind (lit "junit.framework.AssertionError") [] (lit "failure") = lit "assertion"
    ∧ _infer_kind (lit "java.io.IOException") [] (lit "failure") = lit "exception" := by
  refine ⟨?_, ?_, ?_, ?_, ?_, by decide, by decide⟩
  · intro t m g ht hA
    simp [_infer_kind, ht, hA]
  · intro t m g ht hA hE
    simp [_infer_kind, ht, hA, hE]
  · intro t m g ht hA
    rcases ht with ht | ⟨h1, h2⟩
    · subst ht; simp_all [_infer_kind]
    · simp [_infer_kind, h1, h2, hA]
  · intro t m g ht hA hE
    rcases ht with ht | ⟨h1, h2⟩
    · subst ht; simp_all [_infer_kind]
    · simp [_infer_kind, h1, h2, hA, hE]
  · intro t m g ht hA hE
    rcases ht with ht | ⟨h1, h2⟩
    · subst ht; simp_all [_infer_kind]
    · simp [_infer_kind, h1, h2, hA, hE]

/-- C8, witness: the amended cascade applied at concrete inputs. -/
theorem c8_infer_kind_witness :
    _infer_kind (lit "junit.framework.AssertionError") [] (lit "failure") = lit "assertion"
    ∧ _infer_kind [] (lit "hit NetworkError again") (lit "failure") = lit "exception" :=
  ⟨c8_infer_kind_amended.1 (lit "junit.framework.AssertionError") [] (lit "failure")
      (by decide) (by decide),
    c8_infer_kind_amended.2.2.2.1 [] (lit "hit NetworkError again") (lit "failure")
      (Or.inl rfl) (by decide) (by decide)⟩

-- ---------------------------------------------------------------------------
-- C9: parse sentinel
-- ---------------------------------------------------------------------------

/-- C9: `parse_junit_xml` returns the sentinel `none` exactly when the
XML is malformed (the parse oracle yields `none`) or the root element is
neither `testsuites` nor `testsuite`; for every well-formed input with
such a root it returns some (possibly empty) list of suites.  The
embedding is a total function, so no exception can escape. -/
theorem c9_parse_junit_sentinel (parsed : Option XmlElem) :
    (parse_junit_xml parsed = none ↔
      parsed = none ∨ ∃ root, parsed = some root
        ∧ root.tag ≠ lit "testsuites" ∧ root.tag ≠ lit "testsuite")
    ∧ (∀ root, parsed = some root →
        (root.tag = lit "testsuites" ∨ root.tag = lit "testsuite") →
        ∃ suites, parse_junit_xml parsed = some suites) := by
  constructor
  · cases parsed with
    | none => simp [parse_junit_xml]
    | some root =>
      simp only [parse_junit_xml]
      by_cases h1 : root.tag = lit "testsuites"
      · simp [h1]
      · by_cases h2 : root.tag = lit "testsuite"
        · rw [if_neg h1, if_pos h2]
          simp [h2]
        · simp [h1, h2]
  · intro root hr htag
    subst hr
    simp only [parse_junit_xml]
    rcases htag with h | h
    · simp [h]
    · by_cases h1 : root.tag = lit "testsuites"
      · simp [h1]
      · rw [if_neg h1, if_pos h]
        exact ⟨_, rfl⟩

/-- C9, witness: a well-formed single-suite root parses to some list. -/
theorem c9_parse_junit_witness :
    ∃ suites, parse_junit_xml (some c9root) = some suites :=
  (c9_parse_junit_sentinel (some c9root)).2 c9root rfl (Or.inr (by decide))

-- ---------------------------------------------------------------------------
-- C4: section clip policy
-- ---------------------------------------------------------------------------

/-- C4, counterexample: a 20-line section formatted against 4 available
lines does not fit and 4 does not permit the minimum clip size (the
available content budget 4 - 2 = 2 is below MIN_CLIP_LINES = 5), yet the
section is not rendered as its header alone: the code emits a degraded
head-only clip with an omission marker. -/
theorem c4_format_counterexample :
    (snippetOf c4sec c4lines).length + 1 > 4
    ∧ 4 - 2 < MIN_CLIP_LINES
    ∧ _format_section c4sec c4lines (some 4) =
        _make_header c4sec ++ '\n' :: joinLines [lit "x", lit "x", omissionMarker 18]
    ∧ _format_section c4sec c4lines (some 4) ≠ _make_header c4sec := by
  decide

/-- C4, amended: when the full section (content plus header) does not
fit in `m` available lines, there are three cases: for `m < 3` the
section is its header alone; for `3 ≤ m` with available budget
`m - 2` below the minimum clip size, a head-only clip of
`max 1 (m - 2)` lines plus an omission marker; and when the minimum
clip fits, a head portion (the larger or equal half), an omission
marker and a tail portion, with disjoint head and tail slices and
header+head+marker+tail summing to exactly `m` lines. -/
theorem c4_format_clip_policy (sec : MatchedSection) (lines : List Str) (m : Nat)
    (hbig : (snippetOf sec lines).length + 1 > m) :
    (m < 3 → _format_section sec lines (some m) = _make_header sec)
    ∧ (3 ≤ m → m - 2 < MIN_CLIP_LINES →
        _format_section sec lines (some m) =
          _make_header sec ++ '\n' :: joinLines
            ((snippetOf sec lines).take (max 1 (m - 2))
              ++ [omissionMarker ((snippetOf sec lines).length
                    - ((snippetOf sec lines).take (max 1 (m - 2))).length)]))
    ∧ (MIN_CLIP_LINES ≤ m - 2 →
        ∃ top bottom : Nat,
          top = (m - 2 + 1) / 2 ∧ bottom = (m - 2) - top
          ∧ bottom ≤ top ∧ 0 < bottom
          ∧ top + bottom ≤ (snippetOf sec lines).length
          ∧ _format_section sec lines (some m) =
              _make_header sec ++ '\n' :: joinLines
                ((snippetOf sec lines).take top
                  ++ [omissionMarker ((snippetOf sec lines).length - top - bottom)]
                  ++ (snippetOf sec lines).drop ((snippetOf sec lines).length - bottom))
          ∧ 1 + top + 1 + bottom = m) := by
  have hsnip : (lines.drop sec.start).take (sec.stop + 1 - sec.start) = snippetOf sec lines := rfl
  refine ⟨?_, ?_, ?_⟩
  · intro hm3
    simp only [_format_section, hsnip]
    rw [if_neg (by omega), if_pos hm3]
  · intro hm3 hmin
    simp only [_format_section, hsnip]
    rw [if_neg (by omega), if_neg (by omega), if_pos hmin]
  · intro hmin
    have hm7 : 7 ≤ m := by
      have : MIN_CLIP_LINES = 5 := rfl
      omega
    refine ⟨(m - 2 + 1) / 2, (m - 2) - (m - 2 + 1) / 2, rfl, rfl, by omega, by omega, by omega, ?_, by omega⟩
    simp only [_format_section, hsnip]
    rw [if_neg (by omega), if_neg (by omega), if_neg (by omega),
      if_pos (show 0 < (m - 2) - (m - 2 + 1) / 2 by omega)]

/-- C4, witness: the clip policy at a concrete 20-line section and
budget 9: head 4, marker, tail 3, exactly 9 lines with the header. -/
theorem c4_format_clip_policy_witness :
    (snippetOf c4sec c4lines).length + 1 > 9
    ∧ (MIN_CLIP_LINES ≤ 9 - 2 →
        ∃ top bottom : Nat,
          top = (9 - 2 + 1) / 2 ∧ bottom = (9 - 2) - top
          ∧ bottom ≤ top ∧ 0 < bottom
          ∧ top + bottom ≤ (snippetOf c4sec c4lines).length
          ∧ _format_section c4sec c4lines (some 9) =
              _make_header c4sec ++ '\n' :: joinLines
                ((snippetOf c4sec c4lines).take top
                  ++ [omissionMarker ((snippetOf c4sec c4lines).length - top - bottom)]
                  ++ (snippetOf c4sec c4lines).drop ((snippetOf c4sec c4lines).length - bottom))
          ∧ 1 + top + 1 + bottom = 9) :=
  ⟨by decide, (c4_format_clip_policy c4sec c4lines 9 (by decide)).2.2⟩

-- ---------------------------------------------------------------------------
-- Deduplication lemmas
-- ---------------------------------------------------------------------------

theorem bump_fingerprint (u : MatchedSection) :
    (bumpRepeat u).fingerprint = u.fingerprint := rfl

theorem reset_bump (u : MatchedSection) :
    resetRepeat (bumpRepeat u) = resetRepeat u := rfl

theorem modifyAt_map_reset (acc : List MatchedSection) (i : Nat) :
    (modifyAt acc i bumpRepeat).map resetRepeat = acc.map resetRepeat := by
  induction acc generalizing i with
  | nil => rfl
  | cons x xs ih =>
    cases i with
    | zero => simp [modifyAt, reset_bump]
    | succ n => simp [modifyAt, ih]

theorem modifyAt_map_fp (acc : List MatchedSection) (i : Nat) :
    (modifyAt acc i bumpRepeat).map MatchedSection.fingerprint
      = acc.map MatchedSection.fingerprint := by
  induction acc generalizing i with
  | nil => rfl
  | cons x xs ih =>
    cases i with
    | zero => simp [modifyAt, bump_fingerprint]
    | succ n => simp [modifyAt, ih]

theorem modifyAt_length {α : Type} (acc : List α) (i : Nat) (f : α → α) :
    (modifyAt acc i f).length = acc.length := by
  induction acc generalizing i with
  | nil => rfl
  | cons x xs ih =>
    cases i with
    | zero => simp [modifyAt]
    | succ n => simp [modifyAt, ih]

theorem modifyAt_mem {α : Type} (acc : List α) (i : Nat) (f : α → α) (u : α)
    (hu : u ∈ acc) : u ∈ modifyAt acc i f ∨ f u ∈ modifyAt acc i f := by
  induction acc generalizing i with
  | nil => simp at hu
  | cons x xs ih =>
    cases i with
    | zero =>
      rcases List.mem_cons.mp hu with h | h
      · subst h; right; simp [modifyAt]
      · left; simp [modifyAt, h]
    | succ n =>
      rcases List.mem_cons.mp hu with h | h
      · subst h; left; simp [modifyAt]
      · rcases ih n h with h1 | h1
        · left; simp [modifyAt, h1]
        · right; simp [modifyAt, h1]

theorem modifyAt_mem_inv {α : Type} (acc : List α) (i : Nat) (f : α → α) (a : α)
    (ha : a ∈ modifyAt acc i f) : a ∈ acc ∨ ∃ u ∈ acc, a = f u := by
  induction acc generalizing i with
  | nil => simp [modifyAt] at ha
  | cons x xs ih =>
    cases i with
    | zero =>
      simp only [modifyAt] at ha
      rcases List.mem_cons.mp ha with h | h
      · right; exact ⟨x, List.mem_cons_self x xs, h⟩
      · left; exact List.mem_cons_of_mem x h
    | succ n =>
      simp only [modifyAt] at ha
      rcases List.mem_cons.mp ha with h | h
      · left; exact h ▸ List.mem_cons_self x xs
      · rcases ih n h with h1 | h1
        · left; exact List.mem_cons_of_mem x h1
        · right
          obtain ⟨u, hu1, hu2⟩ := h1
          exact ⟨u, List.mem_cons_of_mem x hu1, hu2⟩

theorem firstFpIdx_none_spec (acc : List MatchedSection) (fp : Str)
    (h : firstFpIdx acc fp = none) : ∀ u ∈ acc, u.fingerprint ≠ fp := by
  induction acc with
  | nil => simp
  | cons x xs ih =>
    simp only [firstFpIdx] at h
    split at h
    · exact absurd h (by simp)
    · intro u hu
      rcases List.mem_cons.mp hu with h1 | h1
      · subst h1; assumption
      · exact ih (by cases he : firstFpIdx xs fp with
          | none => rfl
          | some j => rw [he] at h; simp at h) u h1

theorem firstFpIdx_some_decomp (acc : List MatchedSection) (fp : Str) (i : Nat)
    (h : firstFpIdx acc fp = some i) :
    ∃ pre u post, acc = pre ++ u :: post ∧ pre.length = i ∧ u.fingerprint = fp := by
  induction acc generalizing i with
  | nil => simp [firstFpIdx] at h
  | cons x xs ih =>
    simp only [firstFpIdx] at h
    split at h
    · rename_i hx
      have : i = 0 := by simpa using h.symm
      subst this
      exact ⟨[], x, xs, rfl, rfl, hx⟩
    · cases he : firstFpIdx xs fp with
      | none => rw [he] at h; simp at h
      | some j =>
        rw [he] at h
        simp at h
        obtain ⟨pre, u, post, h1, h2, h3⟩ := ih j he
        exact ⟨x :: pre, u, post, by simp [h1], by simp [h2, ← h], h3⟩

theorem modifyAt_decomp {α : Type} (pre : List α) (u : α) (post : List α) (f : α → α) :
    modifyAt (pre ++ u :: post) pre.length f = pre ++ f u :: post := by
  induction pre with
  | nil => rfl
  | cons x xs ih => simp [modifyAt, ih]

theorem dedupGo_reset_sublist (rest acc : List MatchedSection) :
    ((dedupGo acc rest).map resetRepeat).Sublist
      (acc.map resetRepeat ++ rest.map resetRepeat) := by
  induction rest generalizing acc with
  | nil => simp [dedupGo]
  | cons s t ih =>
    simp only [dedupGo]
    cases h : firstFpIdx acc s.fingerprint with
    | some i =>
      have h1 := ih (modifyAt acc i bumpRepeat)
      rw [modifyAt_map_reset] at h1
      refine h1.trans ?_
      simp only [List.map_cons]
      exact (List.sublist_cons_self (resetRepeat s) (t.map resetRepeat)).append_left
        (acc.map resetRepeat)
    | none =>
      have h1 := ih (acc ++ [s])
      rw [List.map_append] at h1
      simpa using h1

theorem dedupGo_sum (rest : List MatchedSection) :
    ∀ acc, (∀ s ∈ rest, s.repeat_count = 1) →
    ((dedupGo acc rest).map (·.repeat_count)).sum
      = (acc.map (·.repeat_count)).sum + rest.length := by
  induction rest with
  | nil => intro acc _; simp [dedupGo]
  | cons s t ih =>
    intro acc hone
    simp only [dedupGo]
    cases h : firstFpIdx acc s.fingerprint with
    | some i =>
      obtain ⟨pre, u, post, hdec, hlen, _⟩ := firstFpIdx_some_decomp acc _ i h
      rw [ih _ (fun x hx => hone x (List.mem_cons_of_mem s hx))]
      subst hdec
      rw [← hlen, modifyAt_decomp]
      simp [bumpRepeat, List.sum_append]
      omega
    | none =>
      rw [ih _ (fun x hx => hone x (List.mem_cons_of_mem s hx))]
      have hs : s.repeat_count = 1 := hone s (List.mem_cons_self s t)
      simp [List.sum_append, hs]
      omega

theorem dedupGo_length_card (rest : List MatchedSection) :
    ∀ acc, (acc.map MatchedSection.fingerprint).Nodup →
    (dedupGo acc rest).length
      = ((acc ++ rest).map MatchedSection.fingerprint).toFinset.card := by
  induction rest with
  | nil =>
    intro acc hnd
    simp only [dedupGo, List.append_nil]
    rw [List.toFinset_card_of_nodup hnd, List.length_map]
  | cons s t ih =>
    intro acc hnd
    simp only [dedupGo]
    cases h : firstFpIdx acc s.fingerprint with
    | some i =>
      obtain ⟨pre, u, post, hdec, hlen, hfp⟩ := firstFpIdx_some_decomp acc _ i h
      have hnd2 : ((modifyAt acc i bumpRepeat).map MatchedSection.fingerprint).Nodup := by
        rw [modifyAt_map_fp]; exact hnd
      rw [ih _ hnd2]
      have hmem : s.fingerprint ∈ acc.map MatchedSection.fingerprint := by
        rw [hdec]
        simp [← hfp]
      congr 1
      rw [List.map_append, List.map_append, List.toFinset_append, List.toFinset_append,
        modifyAt_map_fp]
      apply Finset.ext
      intro a
      simp only [Finset.mem_union, List.map_cons, List.mem_toFinset, List.mem_cons]
      constructor
      · rintro (h1 | h1)
        · exact Or.inl h1
        · exact Or.inr (Or.inr h1)
      · rintro (h1 | h1 | h1)
        · exact Or.inl h1
        · exact Or.inl (by rw [h1]; exact hmem)
        · exact Or.inr h1
    | none =>
      have hnot := firstFpIdx_none_spec acc _ h
      have hnd2 : ((acc ++ [s]).map MatchedSection.fingerprint).Nodup := by
        rw [List.map_append]
        simp only [List.map_cons, List.map_nil]
        rw [List.nodup_append]
        refine ⟨hnd, List.nodup_singleton _, ?_⟩
        intro a ha
        simp only [List.mem_singleton]
        intro hb
        obtain ⟨u, hu, hu2⟩ := List.mem_map.mp ha
        exact hnot u hu (by rw [hu2, hb])
      rw [ih _ hnd2]
      rw [List.append_assoc]
      rfl

theorem dedupGo_rc_pos (rest : List MatchedSection) :
    ∀ acc, (∀ u ∈ acc, 1 ≤ u.repeat_count) → (∀ s ∈ rest, 1 ≤ s.repeat_count) →
    ∀ v ∈ dedupGo acc rest, 1 ≤ v.repeat_count := by
  induction rest with
  | nil => intro acc hacc _ v hv; exact hacc v hv
  | cons s t ih =>
    intro acc hacc hrest v hv
    simp only [dedupGo] at hv
    cases h : firstFpIdx acc s.fingerprint with
    | some i =>
      rw [h] at hv
      refine ih _ ?_ (fun x hx => hrest x (List.mem_cons_of_mem s hx)) v hv
      intro u hu
      rcases modifyAt_mem_inv acc i bumpRepeat u hu with h1 | h1
      · exact hacc u h1
      · obtain ⟨w, hw1, hw2⟩ := h1
        simp [hw2, bumpRepeat]
    | none =>
      rw [h] at hv
      refine ih _ ?_ (fun x hx => hrest x (List.mem_cons_of_mem s hx)) v hv
      intro u hu
      rcases List.mem_append.mp hu with h1 | h1
      · exact hacc u h1
      · simp at h1
        exact h1 ▸ hrest s (List.mem_cons_self s t)

theorem length_le_sum_of_one_le (L : List Nat) (h : ∀ x ∈ L, 1 ≤ x) :
    L.length ≤ L.sum := by
  induction L with
  | nil => simp
  | cons x xs ih =>
    simp only [List.length_cons, List.sum_cons]
    have h1 := h x (List.mem_cons_self x xs)
    have h2 := ih (fun y hy => h y (List.mem_cons_of_mem x hy))
    omega

theorem sum_sub_one (L : List Nat) (h : ∀ x ∈ L, 1 ≤ x) :
    (L.map (· - 1)).sum = L.sum - L.length := by
  induction L with
  | nil => simp
  | cons x xs ih =>
    simp only [List.map_cons, List.sum_cons, List.length_cons]
    rw [ih (fun y hy => h y (List.mem_cons_of_mem x hy))]
    have hx : 1 ≤ x := h x (List.mem_cons_self x xs)
    have hsum : xs.length ≤ xs.sum :=
      length_le_sum_of_one_le xs (fun y hy => h y (List.mem_cons_of_mem x hy))
    omega

theorem resetRepeat_eq_self (s : MatchedSection) (h : s.repeat_count = 1) :
    resetRepeat s = s := by
  cases s
  simp only [resetRepeat] at *
  simp_all

theorem dedupGo_mono (rest : List MatchedSection) :
    ∀ acc u, u ∈ acc → ∃ v ∈ dedupGo acc rest,
      v.fingerprint = u.fingerprint ∧ u.repeat_count ≤ v.repeat_count := by
  induction rest with
  | nil => intro acc u hu; exact ⟨u, hu, rfl, le_refl _⟩
  | cons s t ih =>
    intro acc u hu
    simp only [dedupGo]
    cases h : firstFpIdx acc s.fingerprint with
    | some i =>
      rcases modifyAt_mem acc i bumpRepeat u hu with h1 | h1
      · exact ih _ u h1
      · obtain ⟨v, hv1, hv2, hv3⟩ := ih _ (bumpRepeat u) h1
        exact ⟨v, hv1, hv2.trans (bump_fingerprint u),
          le_trans (by simp [bumpRepeat]) hv3⟩
    | none =>
      exact ih _ u (List.mem_append.mpr (Or.inl hu))

theorem dedupGo_exists_fp (rest : List MatchedSection) :
    ∀ acc s, s ∈ rest → ∃ v ∈ dedupGo acc rest, v.fingerprint = s.fingerprint := by
  induction rest with
  | nil => intro acc s hs; simp at hs
  | cons x t ih =>
    intro acc s hs
    simp only [dedupGo]
    rcases List.mem_cons.mp hs with h1 | h1
    · subst h1
      cases h : firstFpIdx acc s.fingerprint with
      | some i =>
        obtain ⟨pre, u, post, hdec, hlen, hfp⟩ := firstFpIdx_some_decomp acc _ i h
        have hmem : bumpRepeat u ∈ modifyAt acc i bumpRepeat := by
          rw [hdec, ← hlen, modifyAt_decomp]
          simp
        obtain ⟨v, hv1, hv2, _⟩ := dedupGo_mono t _ (bumpRepeat u) hmem
        exact ⟨v, hv1, by rw [hv2, bump_fingerprint, hfp]⟩
      | none =>
        obtain ⟨v, hv1, hv2, _⟩ :=
          dedupGo_mono t (acc ++ [s]) s (List.mem_append.mpr (Or.inr (by simp)))
        exact ⟨v, hv1, hv2⟩
    · cases h : firstFpIdx acc x.fingerprint with
      | some i => exact ih _ s h1
      | none => exact ih _ s h1

theorem dedupGo_two (rest : List MatchedSection) :
    ∀ acc fp, (∀ u ∈ acc, 1 ≤ u.repeat_count) → (∀ s ∈ rest, 1 ≤ s.repeat_count) →
    ((∃ u ∈ acc, u.fingerprint = fp ∧ 2 ≤ u.repeat_count)
      ∨ ((∃ u ∈ acc, u.fingerprint = fp) ∧ (∃ s ∈ rest, s.fingerprint = fp))
      ∨ 2 ≤ rest.countP (fun s => decide (s.fingerprint = fp))) →
    ∃ v ∈ dedupGo acc rest, v.fingerprint = fp ∧ 2 ≤ v.repeat_count := by
  induction rest with
  | nil =>
    intro acc fp hacc _ hcase
    rcases hcase with ⟨u, hu1, hu2, hu3⟩ | ⟨_, ⟨s, hs, _⟩⟩ | hc
    · exact ⟨u, hu1, hu2, hu3⟩
    · simp at hs
    · simp [List.countP, List.countP.go] at hc
  | cons s t ih =>
    intro acc fp hacc hrest hcase
    simp only [dedupGo]
    have hacc2 : ∀ tail : List MatchedSection,
        (∀ x ∈ t, 1 ≤ x.repeat_count) := fun _ x hx => hrest x (List.mem_cons_of_mem s hx)
    cases h : firstFpIdx acc s.fingerprint with
    | some i =>
      obtain ⟨pre, u, post, hdec, hlen, hfp⟩ := firstFpIdx_some_decomp acc _ i h
      have hmod : modifyAt acc i bumpRepeat = pre ++ bumpRepeat u :: post := by
        rw [hdec, ← hlen, modifyAt_decomp]
      have haccm : ∀ w ∈ modifyAt acc i bumpRepeat, 1 ≤ w.repeat_count := by
        intro w hw
        rcases modifyAt_mem_inv acc i bumpRepeat w hw with h1 | h1
        · exact hacc w h1
        · obtain ⟨z, hz1, hz2⟩ := h1
          simp [hz2, bumpRepeat]
      rcases hcase with ⟨w, hw1, hw2, hw3⟩ | ⟨⟨w, hw1, hw2⟩, ⟨z, hz1, hz2⟩⟩ | hc
      · -- an accumulated section already has the fingerprint with count ≥ 2
        rcases modifyAt_mem acc i bumpRepeat w hw1 with h1 | h1
        · obtain ⟨v, hv1, hv2, hv3⟩ := dedupGo_mono t _ w h1
          exact ⟨v, hv1, hv2.trans hw2, le_trans hw3 hv3⟩
        · obtain ⟨v, hv1, hv2, hv3⟩ := dedupGo_mono t _ (bumpRepeat w) h1
          refine ⟨v, hv1, hv2.trans hw2, ?_⟩
          have : w.repeat_count ≤ (bumpRepeat w).repeat_count := by simp [bumpRepeat]
          omega
      · -- fingerprint in acc and occurring in s :: t
        by_cases hsf : s.fingerprint = fp
        · -- s itself has it: the bumped first occurrence reaches count ≥ 2
          have hufp : u.fingerprint = fp := by rw [hfp, hsf]
          have hu1 : u ∈ acc := by rw [hdec]; simp
          have hbmem : bumpRepeat u ∈ modifyAt acc i bumpRepeat := by
            rw [hmod]; simp
          obtain ⟨v, hv1, hv2, hv3⟩ := dedupGo_mono t _ (bumpRepeat u) hbmem
          refine ⟨v, hv1, hv2.trans (by rw [bump_fingerprint, hufp]), ?_⟩
          have h2 : 1 ≤ u.repeat_count := hacc u hu1
          have h3 : (bumpRepeat u).repeat_count = u.repeat_count + 1 := rfl
          omega
        · -- the later occurrence is in t
          have hz3 : z ∈ t := by
            rcases List.mem_cons.mp hz1 with hz | hz
            · exact absurd (hz ▸ hz2) hsf
            · exact hz
          rcases modifyAt_mem acc i bumpRepeat w hw1 with h1 | h1
          · exact ih _ fp haccm (hacc2 t) (Or.inr (Or.inl ⟨⟨w, h1, hw2⟩, ⟨z, hz3, hz2⟩⟩))
          · exact ih _ fp haccm (hacc2 t)
              (Or.inr (Or.inl ⟨⟨bumpRepeat w, h1, (bump_fingerprint w).trans hw2⟩, ⟨z, hz3, hz2⟩⟩))
      · -- two occurrences in s :: t
        by_cases hsf : s.fingerprint = fp
        · have hufp : u.fingerprint = fp := by rw [hfp, hsf]
          have hu1 : u ∈ acc := by rw [hdec]; simp
          have hbmem : bumpRepeat u ∈ modifyAt acc i bumpRepeat := by
            rw [hmod]; simp
          obtain ⟨v, hv1, hv2, hv3⟩ := dedupGo_mono t _ (bumpRepeat u) hbmem
          refine ⟨v, hv1, hv2.trans (by rw [bump_fingerprint, hufp]), ?_⟩
          have h2 : 1 ≤ u.repeat_count := hacc u hu1
          have h3 : (bumpRepeat u).repeat_count = u.repeat_count + 1 := rfl
          omega
        · have hc2 : 2 ≤ t.countP (fun x => decide (x.fingerprint = fp)) := by
            rw [List.countP_cons] at hc
            simp [hsf] at hc
            omega
          exact ih _ fp haccm (hacc2 t) (Or.inr (Or.inr hc2))
    | none =>
      have hacc' : ∀ w ∈ acc ++ [s], 1 ≤ w.repeat_count := by
        intro w hw
        rcases List.mem_append.mp hw with h1 | h1
        · exact hacc w h1
        · simp at h1; exact h1 ▸ hrest s (List.mem_cons_self s t)
      rcases hcase with ⟨w, hw1, hw2, hw3⟩ | ⟨⟨w, hw1, hw2⟩, ⟨z, hz1, hz2⟩⟩ | hc
      · obtain ⟨v, hv1, hv2, hv3⟩ :=
          dedupGo_mono t (acc ++ [s]) w (List.mem_append.mpr (Or.inl hw1))
        exact ⟨v, hv1, hv2.trans hw2, le_trans hw3 hv3⟩
      · by_cases hsf : s.fingerprint = fp
        · exact absurd (hw2.trans hsf.symm) (firstFpIdx_none_spec acc _ h w hw1)
        · have hz3 : z ∈ t := by
            rcases List.mem_cons.mp hz1 with hz | hz
            · exact absurd (hz ▸ hz2) hsf
            · exact hz
          exact ih _ fp hacc' (hacc2 t)
            (Or.inr (Or.inl ⟨⟨w, List.mem_append.mpr (Or.inl hw1), hw2⟩, ⟨z, hz3, hz2⟩⟩))
      · by_cases hsf : s.fingerprint = fp
        · obtain ⟨z, hz1, hz2⟩ : ∃ z ∈ t, z.fingerprint = fp := by
            rw [List.countP_cons, decide_eq_true hsf] at hc
            simp at hc
            exact hc
          exact ih _ fp hacc' (hacc2 t)
            (Or.inr (Or.inl ⟨⟨s, List.mem_append.mpr (Or.inr (by simp)), hsf⟩, ⟨z, hz1, hz2⟩⟩))
        · have hc2 : 2 ≤ t.countP (fun x => decide (x.fingerprint = fp)) := by
            rw [List.countP_cons] at hc
            simp [hsf] at hc
            omega
          exact ih _ fp hacc' (hacc2 t) (Or.inr (Or.inr hc2))

theorem dedupGo_from_input (rest : List MatchedSection) :
    ∀ acc v, v ∈ dedupGo acc rest →
      ∃ a, (a ∈ acc ∨ a ∈ rest) ∧ v.tier = a.tier ∧ v.fingerprint = a.fingerprint := by
  induction rest with
  | nil => intro acc v hv; exact ⟨v, Or.inl hv, rfl, rfl⟩
  | cons s t ih =>
    intro acc v hv
    simp only [dedupGo] at hv
    cases h : firstFpIdx acc s.fingerprint with
    | some i =>
      rw [h] at hv
      obtain ⟨a, ha1, ha2, ha3⟩ := ih _ v hv
      rcases ha1 with h1 | h1
      · rcases modifyAt_mem_inv acc i bumpRepeat a h1 with h2 | h2
        · exact ⟨a, Or.inl h2, ha2, ha3⟩
        · obtain ⟨u, hu1, hu2⟩ := h2
          exact ⟨u, Or.inl hu1, by rw [ha2, hu2]; rfl, by rw [ha3, hu2]; rfl⟩
      · exact ⟨a, Or.inr (List.mem_cons_of_mem s h1), ha2, ha3⟩
    | none =>
      rw [h] at hv
      obtain ⟨a, ha1, ha2, ha3⟩ := ih _ v hv
      rcases ha1 with h1 | h1
      · rcases List.mem_append.mp h1 with h2 | h2
        · exact ⟨a, Or.inl h2, ha2, ha3⟩
        · simp at h2
          exact ⟨s, Or.inr (List.mem_cons_self s t), by rw [ha2, h2], by rw [ha3, h2]⟩
      · exact ⟨a, Or.inr (List.mem_cons_of_mem s h1), ha2, ha3⟩

-- ---------------------------------------------------------------------------
-- C10: deduplication bookkeeping
-- ---------------------------------------------------------------------------

/-- C10, counterexample: on an input whose sections already carry
`repeat_count = 2`, the deduplicated output is not a subsequence of the
input (the kept first occurrence is mutated) and the repeat counts sum
to 3, not to the number of input sections (2). -/
theorem c10_dedup_counterexample :
    _deduplicate [c10sec, c10sec] = [⟨lit "ERROR", 0, 0, [lit "x"], [], 3⟩]
    ∧ ¬ (_deduplicate [c10sec, c10sec]).Sublist [c10sec, c10sec]
    ∧ ((_deduplicate [c10sec, c10sec]).map (·.repeat_count)).sum ≠ 2 := by
  refine ⟨by decide, ?_, by decide⟩
  intro hsub
  have h1 : (⟨lit "ERROR", 0, 0, [lit "x"], [], 3⟩ : MatchedSection) ∈ [c10sec, c10sec] := by
    have h0 : _deduplicate [c10sec, c10sec] = [⟨lit "ERROR", 0, 0, [lit "x"], [], 3⟩] := by
      decide
    exact hsub.subset (h0 ▸ List.mem_singleton_self _)
  have : (⟨lit "ERROR", 0, 0, [lit "x"], [], 3⟩ : MatchedSection) ≠ c10sec := by decide
  rcases List.mem_cons.mp h1 with h | h
  · exact this h
  · simp at h
    exact this h

/-- C10, amended: when every input section carries `repeat_count = 1`
(as the scanner produces them), the deduplicated output — with repeat
counts reset — is a subsequence of the input preserving first-occurrence
order; the repeat counts over the output sum to the number of input
sections; the output has one section per distinct input fingerprint; and
the duplicates-collapsed total of the summary equals the number of input
sections minus the number of distinct fingerprints. -/
theorem map_reset_id (sections : List MatchedSection)
    (hone : ∀ s ∈ sections, s.repeat_count = 1) :
    sections.map resetRepeat = sections := by
  induction sections with
  | nil => rfl
  | cons x xs ih =>
    simp only [List.map_cons]
    rw [resetRepeat_eq_self x (hone x (List.mem_cons_self x xs)),
      ih (fun y hy => hone y (List.mem_cons_of_mem x hy))]

theorem c10_dedup_bookkeeping (sections : List MatchedSection)
    (hone : ∀ s ∈ sections, s.repeat_count = 1) :
    ((_deduplicate sections).map resetRepeat).Sublist sections
    ∧ ((_deduplicate sections).map (·.repeat_count)).sum = sections.length
    ∧ (_deduplicate sections).length
        = (sections.map MatchedSection.fingerprint).toFinset.card
    ∧ ((_deduplicate sections).map (fun s => s.repeat_count - 1)).sum
        = sections.length - (sections.map MatchedSection.fingerprint).toFinset.card := by
  have hsub : ((_deduplicate sections).map resetRepeat).Sublist sections := by
    have h1 := dedupGo_reset_sublist sections []
    simp only [List.map_nil, List.nil_append] at h1
    rw [map_reset_id sections hone] at h1
    exact h1
  have hsum : ((_deduplicate sections).map (·.repeat_count)).sum = sections.length := by
    have h1 := dedupGo_sum sections [] hone
    simpa [List.sum_nil] using h1
  have hlen : (_deduplicate sections).length
      = (sections.map MatchedSection.fingerprint).toFinset.card := by
    have h1 := dedupGo_length_card sections [] (by simp)
    simpa using h1
  refine ⟨hsub, hsum, hlen, ?_⟩
  have hpos : ∀ v ∈ _deduplicate sections, 1 ≤ v.repeat_count :=
    dedupGo_rc_pos sections [] (by simp) (fun s hs => le_of_eq (hone s hs).symm)
  have h2 : (((_deduplicate sections).map (·.repeat_count)).map (· - 1)).sum
      = ((_deduplicate sections).map (·.repeat_count)).sum
        - ((_deduplicate sections).map (·.repeat_count)).length := by
    apply sum_sub_one
    intro x hx
    obtain ⟨v, hv1, hv2⟩ := List.mem_map.mp hx
    exact hv2 ▸ hpos v hv1
  rw [List.map_map] at h2
  have h3 : ((_deduplicate sections).map (fun s => s.repeat_count - 1)).sum
      = (((_deduplicate sections).map (·.repeat_count)).sum)
        - (_deduplicate sections).length := by
    simpa [Function.comp] using h2
  rw [h3, hsum, hlen]

/-- C10, witness: the amended bookkeeping at a concrete two-section
input with a shared fingerprint. -/
theorem c10_dedup_bookkeeping_witness :
    ((_deduplicate [resetRepeat c10sec, resetRepeat c10sec]).map resetRepeat).Sublist
        [resetRepeat c10sec, resetRepeat c10sec]
    ∧ ((_deduplicate [resetRepeat c10sec, resetRepeat c10sec]).map (·.repeat_count)).sum = 2
    ∧ (_deduplicate [resetRepeat c10sec, resetRepeat c10sec]).length
        = ([resetRepeat c10sec, resetRepeat c10sec].map MatchedSection.fingerprint).toFinset.card
    ∧ ((_deduplicate [resetRepeat c10sec, resetRepeat c10sec]).map
          (fun s => s.repeat_count - 1)).sum
        = 2 - ([resetRepeat c10sec, resetRepeat c10sec].map
            MatchedSection.fingerprint).toFinset.card :=
  c10_dedup_bookkeeping [resetRepeat c10sec, resetRepeat c10sec] (by decide)

-- ---------------------------------------------------------------------------
-- C6: distinct fingerprints
-- ---------------------------------------------------------------------------

theorem fingerprint_expand (s : MatchedSection) :
    s.fingerprint = s.tier ++ '|' :: (tokenOf s ++ '|' :: (s.phase ++ '|'
      :: (bestKeyLine s.key_lines).take 100)) := rfl

/-- A `|`-free tier, token and phase can be read back off the
fingerprint string unambiguously. -/
theorem fingerprint_eq_components (s1 s2 : MatchedSection)
    (ht1 : '|' ∉ s1.tier) (ht2 : '|' ∉ s2.tier)
    (hk1 : '|' ∉ tokenOf s1) (hk2 : '|' ∉ tokenOf s2)
    (hp1 : '|' ∉ s1.phase) (hp2 : '|' ∉ s2.phase)
    (heq : s1.fingerprint = s2.fingerprint) :
    s1.tier = s2.tier ∧ tokenOf s1 = tokenOf s2 ∧ s1.phase = s2.phase := by
  rw [fingerprint_expand, fingerprint_expand] at heq
  obtain ⟨e1, r1⟩ := pipe_split_inj _ _ _ _ ht1 ht2 heq
  obtain ⟨e2, r2⟩ := pipe_split_inj _ _ _ _ hk1 hk2 r1
  obtain ⟨e3, _⟩ := pipe_split_inj _ _ _ _ hp1 hp2 r2
  exact ⟨e1, e2, e3⟩

/-- C6, counterexample: in this log, the sections at positions 1 and 3
(from the lines "error" and "error|error") have the same ERROR tier and
carry *different* exception tokens, yet their fingerprints — assembled
with unescaped "|" separators from token, stage and message — coincide,
and deduplication collapses them into one section with repeat count 2
instead of keeping both. -/
theorem c6_fingerprint_counterexample :
    c6secs.length = 4
    ∧ (c6secs.map (·.tier)) = [lit "ERROR", lit "ERROR", lit "ERROR", lit "ERROR"]
    ∧ (c6secs.map tokenOf)[1]? = some (lit "error")
    ∧ (c6secs.map tokenOf)[3]? = some (lit "error|error")
    ∧ lit "error" ≠ lit "error|error"
    ∧ (c6secs.map MatchedSection.fingerprint)[1]?
        = (c6secs.map MatchedSection.fingerprint)[3]?
    ∧ ((_deduplicate c6secs).map (·.repeat_count)) = [1, 2, 1]
    ∧ (_deduplicate c6secs).length = 3 := by
  decide

/-- C6, amended: two sections whose longest normalized key lines carry
different exception tokens, or the same token but different stage labels
(or different tiers), have different fingerprints and are never
collapsed by deduplication — both appear in the deduplicated output —
provided none of the tiers, tokens and stage labels involved contains
the "|" fingerprint separator. -/
theorem c6_distinct_fingerprints (sections pre mid post : List MatchedSection)
    (s1 s2 : MatchedSection)
    (hdec : sections = pre ++ s1 :: mid ++ s2 :: post)
    (ht1 : '|' ∉ s1.tier) (ht2 : '|' ∉ s2.tier)
    (hk1 : '|' ∉ tokenOf s1) (hk2 : '|' ∉ tokenOf s2)
    (hp1 : '|' ∉ s1.phase) (hp2 : '|' ∉ s2.phase)
    (hdiff : tokenOf s1 ≠ tokenOf s2 ∨ s1.phase ≠ s2.phase ∨ s1.tier ≠ s2.tier) :
    s1.fingerprint ≠ s2.fingerprint
    ∧ ∃ u1 ∈ _deduplicate sections, ∃ u2 ∈ _deduplicate sections,
        u1.fingerprint = s1.fingerprint ∧ u2.fingerprint = s2.fingerprint ∧ u1 ≠ u2 := by
  have hne : s1.fingerprint ≠ s2.fingerprint := by
    intro heq
    obtain ⟨e1, e2, e3⟩ :=
      fingerprint_eq_components s1 s2 ht1 ht2 hk1 hk2 hp1 hp2 heq
    rcases hdiff with h | h | h
    · exact h e2
    · exact h e3
    · exact h e1
  refine ⟨hne, ?_⟩
  have hm1 : s1 ∈ sections := by rw [hdec]; simp
  have hm2 : s2 ∈ sections := by rw [hdec]; simp
  obtain ⟨u1, hu1, hufp1⟩ := dedupGo_exists_fp sections [] s1 hm1
  obtain ⟨u2, hu2, hufp2⟩ := dedupGo_exists_fp sections [] s2 hm2
  refine ⟨u1, hu1, u2, hu2, hufp1, hufp2, ?_⟩
  intro he
  exact hne (hufp1 ▸ hufp2 ▸ he ▸ rfl)

/-- C6, witness: two concrete ERROR sections in the same stage with
tokens NullPointerException and AssertionError keep distinct
fingerprints and both survive deduplication. -/
theorem c6_distinct_fingerprints_witness :
    c6wsec1.fingerprint ≠ c6wsec2.fingerprint
    ∧ ∃ u1 ∈ _deduplicate [c6wsec1, c6wsec2], ∃ u2 ∈ _deduplicate [c6wsec1, c6wsec2],
        u1.fingerprint = c6wsec1.fingerprint ∧ u2.fingerprint = c6wsec2.fingerprint
        ∧ u1 ≠ u2 :=
  c6_distinct_fingerprints [c6wsec1, c6wsec2] [] [] [] c6wsec1 c6wsec2
    (by decide) (by decide) (by decide) (by decide) (by decide) (by decide) (by decide)
    (Or.inl (by decide))

-- ---------------------------------------------------------------------------
-- C7: strict tier priority in the budget allocator
-- ---------------------------------------------------------------------------

theorem take_of_prefix (a p : Str) (h : a <+: p) : p.take a.length = a := by
  obtain ⟨r, hr⟩ := h
  rw [← hr, List.take_left]

theorem format_starts_header (s : MatchedSection) (lines : List Str)
    (m : Option Nat) : ∃ r, _format_section s lines m = _make_header s ++ r := by
  cases m with
  | none => exact ⟨_, rfl⟩
  | some k =>
    simp only [_format_section]
    by_cases h1 : ((lines.drop s.start).take (s.stop + 1 - s.start)).length + 1 ≤ k
    · rw [if_pos h1]
      exact ⟨_, rfl⟩
    · rw [if_neg h1]
      by_cases h2 : k < 3
      · rw [if_pos h2]
        exact ⟨[], (List.append_nil _).symm⟩
      · rw [if_neg h2]
        by_cases h3 : k - 2 < MIN_CLIP_LINES
        · rw [if_pos h3]
          exact ⟨_, rfl⟩
        · rw [if_neg h3]
          exact ⟨_, rfl⟩

theorem make_header_starts (s : MatchedSection) :
    (lit "--- " ++ s.tier) <+: _make_header s := by
  simp only [_make_header]
  exact ((((List.prefix_append _ _).trans (List.prefix_append _ _)).trans
    (List.prefix_append _ _)).trans (List.prefix_append _ _)).trans
    (List.prefix_append _ _)

theorem format_tier_starts (s : MatchedSection) (lines : List Str) (m : Option Nat) :
    (lit "--- " ++ s.tier) <+: _format_section s lines m := by
  obtain ⟨r, hr⟩ := format_starts_header s lines m
  rw [hr]
  exact (make_header_starts s).trans (List.prefix_append _ _)

theorem fillTierGo_parts_tier (lines : List Str) (budget : Nat) (tier : Str) :
    ∀ (secs : List MatchedSection) (st : FillSt),
    ∀ p ∈ (fillTierGo lines budget tier secs st).parts,
      p ∈ st.parts ∨ (lit "--- " ++ tier) <+: p := by
  intro secs
  induction secs with
  | nil => intro st p hp; exact Or.inl hp
  | cons s rest ih =>
    intro st p hp
    simp only [fillTierGo] at hp
    split at hp
    · exact ih st p hp
    · split at hp
      · exact Or.inl hp
      · rename_i hne _
        rcases ih _ p hp with h1 | h1
        · simp only [List.mem_append, List.mem_singleton] at h1
          rcases h1 with h2 | h2
          · exact Or.inl h2
          · right
            rw [h2]
            have hst : s.tier = tier := by
              by_contra hcon
              exact hne hcon
            exact hst ▸ format_tier_starts s lines _
        · exact Or.inr h1

theorem runTiers_exhausted (lines : List Str) (budget : Nat)
    (sections : List MatchedSection) (ts : List Str) (st : FillSt)
    (h : st.exhausted = true) :
    runTiers lines budget sections ts st = st := by
  cases ts with
  | nil => rfl
  | cons t rest => simp [runTiers, h]

theorem runTiers_append (lines : List Str) (budget : Nat)
    (sections : List MatchedSection) (ts1 ts2 : List Str) (st : FillSt) :
    runTiers lines budget sections (ts1 ++ ts2) st
      = runTiers lines budget sections ts2 (runTiers lines budget sections ts1 st) := by
  induction ts1 generalizing st with
  | nil => rfl
  | cons t rest ih =>
    by_cases h : st.exhausted = true
    · rw [runTiers_exhausted _ _ _ _ _ h, runTiers_exhausted _ _ _ _ _ h,
        runTiers_exhausted _ _ _ _ _ h]
    · have hf : st.exhausted = false := by
        cases hx : st.exhausted
        · rfl
        · exact absurd hx h
      show runTiers lines budget sections (t :: (rest ++ ts2)) st = _
      simp only [runTiers, hf, Bool.false_eq_true, if_false]
      rw [ih]

theorem runTiers_parts_tiers (lines : List Str) (budget : Nat)
    (sections : List MatchedSection) :
    ∀ (ts : List Str) (st : FillSt),
    ∀ p ∈ (runTiers lines budget sections ts st).parts,
      p ∈ st.parts ∨ ∃ t ∈ ts, (lit "--- " ++ t) <+: p := by
  intro ts
  induction ts with
  | nil => intro st p hp; exact Or.inl hp
  | cons t rest ih =>
    intro st p hp
    simp only [runTiers] at hp
    split at hp
    · exact Or.inl hp
    · rcases ih _ p hp with h1 | h1
      · rcases fillTierGo_parts_tier lines budget t sections st p h1 with h2 | h2
        · exact Or.inl h2
        · exact Or.inr ⟨t, List.mem_cons_self t rest, h2⟩
      · obtain ⟨u, hu1, hu2⟩ := h1
        exact Or.inr ⟨u, List.mem_cons_of_mem t hu1, hu2⟩

/-- C7: the allocator iterates tiers strictly CRITICAL, ERROR, WARNING;
when the remaining budget falls below the minimum threshold during the
CRITICAL/ERROR passes, processing stops entirely, so no WARNING section
block appears in the output — even one that occurred earlier in scan
order and would individually have fit. -/
theorem c7_warning_absent_when_exhausted (sections : List MatchedSection)
    (lines : List Str) (budget : Nat)
    (hex : (runTiers lines budget sections [TIER_CRITICAL, TIER_ERROR]
        ⟨[], 0, false⟩).exhausted = true) :
    ∀ p ∈ _budget_fill sections lines budget, ¬ (lit "--- WARNING") <+: p := by
  intro p hp hpre
  have hsplit : _budget_fill sections lines budget
      = (runTiers lines budget sections [TIER_CRITICAL, TIER_ERROR] ⟨[], 0, false⟩).parts := by
    unfold _budget_fill
    have h1 : tierOrderList = [TIER_CRITICAL, TIER_ERROR] ++ [TIER_WARNING] := rfl
    rw [h1, runTiers_append, runTiers_exhausted _ _ _ _ _ hex]
  rw [hsplit] at hp
  rcases runTiers_parts_tiers lines budget sections _ _ p hp with h1 | h1
  · simp at h1
  · obtain ⟨t, ht1, ht2⟩ := h1
    rcases List.mem_cons.mp ht1 with h2 | h2
    · -- t = CRITICAL: the two prefixes disagree at character 11
      subst h2
      have hw0 := take_of_prefix (lit "--- WARNING") p hpre
      have hw : p.take 11 = lit "--- WARNING" := by
        rw [show (11 : Nat) = (lit "--- WARNING").length from rfl]
        exact hw0
      have hcrit : (lit "--- CRITICAL") <+: p := by
        have he : lit "--- " ++ TIER_CRITICAL = lit "--- CRITICAL" := by decide
        exact he ▸ ht2
      have hc0 := take_of_prefix (lit "--- CRITICAL") p hcrit
      have hc : p.take 12 = lit "--- CRITICAL" := by
        rw [show (12 : Nat) = (lit "--- CRITICAL").length from rfl]
        exact hc0
      have h3 : (p.take 12).take 11 = p.take 11 := by
        rw [List.take_take]
        norm_num
      rw [hw, hc] at h3
      exact absurd h3 (by decide)
    · simp at h2
      subst h2
      have hw0 := take_of_prefix (lit "--- WARNING") p hpre
      have h4 : p.take 11 = lit "--- WARNING" := by
        rw [show (11 : Nat) = (lit "--- WARNING").length from rfl]
        exact hw0
      have h5 : (p.take 11).take 9 = p.take 9 := by
        rw [List.take_take]
        norm_num
      rw [h4] at h5
      have herr : (lit "--- ERROR") <+: p := by
        have he : lit "--- " ++ TIER_ERROR = lit "--- ERROR" := by decide
        exact he ▸ ht2
      have hc0 := take_of_prefix (lit "--- ERROR") p herr
      have hc : p.take 9 = lit "--- ERROR" := by
        rw [show (9 : Nat) = (lit "--- ERROR").length from rfl]
        exact hc0
      rw [hc] at h5
      exact absurd h5.symm (by decide)

/-- C7, witness: a WARNING section first in scan order, a 20-line
CRITICAL section that consumes a budget of 7, and an ERROR section that
triggers exhaustion; the output contains no WARNING block. -/
theorem c7_warning_absent_witness :
    ((_budget_fill [c7wsec, c7csec, c7esec] c7lines 7).all
      (fun p => ! (decide ((lit "--- WARNING") <+: p)))) = true := by
  have h := c7_warning_absent_when_exhausted [c7wsec, c7csec, c7esec]
    c7lines 7 (by decide)
  rw [List.all_eq_true]
  intro p hp
  simp only [Bool.not_eq_true', decide_eq_false_iff_not]
  exact h p hp

-- ---------------------------------------------------------------------------
-- C5: timestamp-variant deduplication
-- ---------------------------------------------------------------------------

theorem ws_char_cases (c : Char) (h : isWsCh c = true) :
    c = ' ' ∨ c = '\t' ∨ c = '\n' ∨ c = '\r' ∨ c = '\x0b' ∨ c = '\x0c' := by
  simp only [isWsCh, Bool.or_eq_true, decide_eq_true_eq] at h
  tauto

theorem ws_not_digit (c : Char) (h : isWsCh c = true) : isDigitCh c = false := by
  rcases ws_char_cases c h with h1 | h1 | h1 | h1 | h1 | h1 <;> subst h1 <;> decide

theorem ws_not_punct (c : Char) (h : isWsCh c = true) : c ≠ '.' ∧ c ≠ ',' := by
  rcases ws_char_cases c h with h1 | h1 | h1 | h1 | h1 | h1 <;> subst h1 <;> exact ⟨by decide, by decide⟩

theorem digit_not_ws (c : Char) (h : isDigitCh c = true) : isWsCh c = false := by
  cases hw : isWsCh c with
  | false => rfl
  | true => rw [ws_not_digit c hw] at h; exact absurd h (by simp)

theorem digit_not_punct (c : Char) (h : isDigitCh c = true) : c ≠ '.' ∧ c ≠ ',' := by
  constructor
  · intro he; subst he; exact absurd h (by decide)
  · intro he; subst he; exact absurd h (by decide)

theorem dropWhile_append_all {p : Char → Bool} (a b : Str)
    (h : ∀ c ∈ a, p c = true) : List.dropWhile p (a ++ b) = List.dropWhile p b := by
  induction a with
  | nil => rfl
  | cons c rest ih =>
    simp only [List.cons_append, List.dropWhile_cons, h c (List.mem_cons_self c rest),
      if_true]
    exact ih (fun x hx => h x (List.mem_cons_of_mem c hx))

theorem takeWhile_append_all {p : Char → Bool} (a b : Str)
    (h : ∀ c ∈ a, p c = true) : List.takeWhile p (a ++ b) = a ++ List.takeWhile p b := by
  induction a with
  | nil => rfl
  | cons c rest ih =>
    simp only [List.cons_append, List.takeWhile_cons, h c (List.mem_cons_self c rest),
      if_true]
    rw [ih (fun x hx => h x (List.mem_cons_of_mem c hx))]

theorem dropWhile_head_neg {p : Char → Bool} (l : Str)
    (h : ∀ c, l.head? = some c → p c = false) : List.dropWhile p l = l := by
  cases l with
  | nil => rfl
  | cons c rest =>
    simp only [List.dropWhile_cons, h c rfl]
    simp

theorem takeWhile_head_neg {p : Char → Bool} (l : Str)
    (h : ∀ c, l.head? = some c → p c = false) : List.takeWhile p l = [] := by
  cases l with
  | nil => rfl
  | cons c rest =>
    simp only [List.takeWhile_cons, h c rfl]
    simp

theorem stripAnsiGo_id (f : Nat) (s : Str) (h : '\x1b' ∉ s) : stripAnsiGo f s = s := by
  induction f generalizing s with
  | zero => cases s with
    | nil => rfl
    | cons c rest => rfl
  | succ g ih =>
    cases s with
    | nil => rfl
    | cons c rest =>
      have hc : ¬ c = '\x1b' := fun he => h (he ▸ List.mem_cons_self c rest)
      have hr : '\x1b' ∉ rest := fun hm => h (List.mem_cons_of_mem c hm)
      simp only [stripAnsiGo, if_neg hc]
      rw [ih rest hr]

theorem stripAnsi_id (s : Str) (h : '\x1b' ∉ s) : stripAnsi s = s :=
  stripAnsiGo_id s.length s h

/-- The whitespace run and the safe remainder drop away under the
digit-then-whitespace strip at the end of the ISO pattern. -/
theorem trail_strip (trail l : Str) (htrail : trail.all isWsCh = true)
    (hhead : HeadSafe l) :
    ((trail ++ l).dropWhile isDigitCh).dropWhile isWsCh = l := by
  have hws : ∀ c ∈ trail, isWsCh c = true := by
    intro c hc
    exact (List.all_eq_true.mp htrail) c hc
  have h1 : List.dropWhile isDigitCh (trail ++ l) = trail ++ l := by
    apply dropWhile_head_neg
    intro c hc
    cases trail with
    | nil =>
      simp only [List.nil_append] at hc
      exact (hhead c hc).1
    | cons w t =>
      simp only [List.cons_append, List.head?_cons, Option.some_inj] at hc
      exact ws_not_digit c (hc ▸ hws w (List.mem_cons_self w t))
  rw [h1, dropWhile_append_all trail l hws]
  apply dropWhile_head_neg
  intro c hc
  exact (hhead c hc).2.1

theorem stripIsoTs_strips_core
    (y1 y2 y3 y4 p1 m1 m2 p2 d1 d2 sp k1 k2 n1 n2 q1 q2 : Char)
    (frac trail l : Str)
    (hbool : (isDigitCh y1 && isDigitCh y2 && isDigitCh y3 && isDigitCh y4
      && (p1 = '-' || p1 = '/') && isDigitCh m1 && isDigitCh m2
      && (p2 = '-' || p2 = '/') && isDigitCh d1 && isDigitCh d2
      && (isWsCh sp || sp = 'T') && isDigitCh k1 && isDigitCh k2
      && isDigitCh n1 && isDigitCh n2 && isDigitCh q1 && isDigitCh q2) = true)
    (hfrac : FracOk frac) (htrail : trail.all isWsCh = true) (hhead : HeadSafe l) :
    stripIsoTs (([y1, y2, y3, y4, p1, m1, m2, p2, d1, d2, sp, k1, k2, ':', n1, n2, ':',
      q1, q2] ++ frac ++ trail) ++ l) = l := by
  have hrw : ([y1, y2, y3, y4, p1, m1, m2, p2, d1, d2, sp, k1, k2, ':', n1, n2, ':',
      q1, q2] ++ frac ++ trail) ++ l
      = y1 :: y2 :: y3 :: y4 :: p1 :: m1 :: m2 :: p2 :: d1 :: d2 :: sp :: k1 :: k2
        :: ':' :: n1 :: n2 :: ':' :: q1 :: q2 :: (frac ++ (trail ++ l)) := by
    simp
  rw [hrw]
  simp only [stripIsoTs]
  split
  case isFalse hguard =>
    exfalso
    apply hguard
    simp only [Bool.and_eq_true, decide_eq_true_eq] at hbool ⊢
    tauto
  case isTrue _ =>
    rcases hfrac with hf | ⟨hfd, hfne⟩ | ⟨ds, hfeq, hds⟩
    · -- frac = []
      subst hf
      simp only [List.nil_append]
      cases trail with
      | nil =>
        simp only [List.nil_append]
        cases hl : l with
        | nil => simp
        | cons c t =>
          have hc := hhead c (by rw [hl]; rfl)
          simp only [List.nil_append]
          rw [if_neg (by simp [hc.2.2.1, hc.2.2.2.1])]
          have := trail_strip [] l (by simp) hhead
          simpa [hl] using this
      | cons w t' =>
        have hws : ∀ c ∈ w :: t', isWsCh c = true := List.all_eq_true.mp htrail
        have hw := hws w (List.mem_cons_self w t')
        obtain ⟨hne1, hne2⟩ := ws_not_punct w hw
        simp only [List.cons_append]
        rw [if_neg (by simp [hne1, hne2])]
        have := trail_strip (w :: t') l htrail hhead
        simpa using this
    · -- frac is a non-empty digit run
      cases hfe : frac with
      | nil => exact absurd hfe hfne
      | cons d ds' =>
        have hdig : ∀ c ∈ frac, isDigitCh c = true := List.all_eq_true.mp hfd
        have hd := hdig d (by rw [hfe]; exact List.mem_cons_self d ds')
        obtain ⟨hne1, hne2⟩ := digit_not_punct d hd
        simp only [List.cons_append]
        rw [if_neg (by simp [hne1, hne2])]
        have hall : ∀ c ∈ d :: ds', isDigitCh c = true := by rw [← hfe]; exact hdig
        have h1 : List.dropWhile isDigitCh (d :: (ds' ++ (trail ++ l)))
            = List.dropWhile isDigitCh (trail ++ l) := by
          have := dropWhile_append_all (d :: ds') (trail ++ l) hall
          simpa using this
        rw [h1]
        exact trail_strip trail l htrail hhead
    · -- frac starts with a dot or comma followed by digits
      have hdig : ∀ c ∈ ds, isDigitCh c = true := List.all_eq_true.mp hds
      rcases hfeq with hfe | hfe
      · rw [hfe]
        simp only [List.cons_append]
        rw [if_pos (by simp)]
        rw [dropWhile_append_all ds (trail ++ l) hdig]
        exact trail_strip trail l htrail hhead
      · rw [hfe]
        simp only [List.cons_append]
        rw [if_pos (by simp)]
        rw [dropWhile_append_all ds (trail ++ l) hdig]
        exact trail_strip trail l htrail hhead

theorem stripIsoTs_strips (ts l : Str) (hts : IsIsoTs ts) (hhead : HeadSafe l) :
    stripIsoTs (ts ++ l) = l := by
  obtain ⟨core, frac, trail, hts_eq, hcore, hfrac, htrail⟩ := hts
  obtain ⟨y1, y2, y3, y4, p1, m1, m2, p2, d1, d2, sp, k1, k2, n1, n2, q1, q2,
    hceq, hbool⟩ := hcore
  subst hceq
  subst hts_eq
  exact stripIsoTs_strips_core y1 y2 y3 y4 p1 m1 m2 p2 d1 d2 sp k1 k2 n1 n2 q1 q2
    frac trail l hbool hfrac htrail hhead

theorem stripIsoTs_id (s : Str)
    (h : ∀ c, s.head? = some c → isDigitCh c = false) : stripIsoTs s = s := by
  unfold stripIsoTs
  split
  · rename_i y1 y2 y3 y4 p1 m1 m2 p2 d1 d2 sp k1 k2 c1 n1 n2 c2 q1 q2 rest
    rw [if_neg]
    intro hguard
    have h1 : isDigitCh y1 = false := h y1 rfl
    rw [h1] at hguard
    simp at hguard
  · rfl

theorem stripBracketTs_id (s : Str)
    (h : ∀ c, s.head? = some c → c ≠ '[') : stripBracketTs s = s := by
  unfold stripBracketTs
  split
  · rename_i a1 a2 b1 b2 g1 g2 rest
    exact absurd rfl (h '[' rfl)
  · rfl

theorem stripBracketTs_strips (ts l : Str) (hts : IsBracketTs ts)
    (hhead : HeadSafe l) : stripBracketTs (ts ++ l) = l := by
  obtain ⟨a1, a2, b1, b2, g1, g2, k1, k2, n1, n2, q1, q2, ws, trail,
    hts_eq, hbool, hws, hwsne, htrail⟩ := hts
  subst hts_eq
  have hwsall : ∀ c ∈ ws, isWsCh c = true := List.all_eq_true.mp hws
  have htrailall : ∀ c ∈ trail, isWsCh c = true := List.all_eq_true.mp htrail
  have hk1d : isDigitCh k1 = true := by
    simp only [Bool.and_eq_true] at hbool
    tauto
  have hlen : 1 ≤ ws.length := List.length_pos.mpr hwsne
  have hrw : ('[' :: a1 :: a2 :: '/' :: b1 :: b2 :: '/' :: g1 :: g2 :: (ws
      ++ k1 :: k2 :: ':' :: n1 :: n2 :: ':' :: q1 :: q2 :: ']' :: trail)) ++ l
      = '[' :: a1 :: a2 :: '/' :: b1 :: b2 :: '/' :: g1 :: g2 :: (ws
      ++ (k1 :: k2 :: ':' :: n1 :: n2 :: ':' :: q1 :: q2 :: ']' :: (trail ++ l))) := by
    simp
  rw [hrw]
  simp only [stripBracketTs]
  have htw : List.takeWhile isWsCh (ws ++ (k1 :: k2 :: ':' :: n1 :: n2 :: ':' :: q1
      :: q2 :: ']' :: (trail ++ l))) = ws := by
    rw [takeWhile_append_all ws _ hwsall]
    rw [takeWhile_head_neg _ (fun c hc => by
      simp only [List.head?_cons, Option.some_inj] at hc
      exact hc ▸ digit_not_ws k1 hk1d)]
    simp
  have hdw : List.dropWhile isWsCh (ws ++ (k1 :: k2 :: ':' :: n1 :: n2 :: ':' :: q1
      :: q2 :: ']' :: (trail ++ l)))
      = k1 :: k2 :: ':' :: n1 :: n2 :: ':' :: q1 :: q2 :: ']' :: (trail ++ l) := by
    rw [dropWhile_append_all ws _ hwsall]
    exact dropWhile_head_neg _ (fun c hc => by
      simp only [List.head?_cons, Option.some_inj] at hc
      exact hc ▸ digit_not_ws k1 hk1d)
  have hguard : (isDigitCh a1 && isDigitCh a2 && isDigitCh b1 && isDigitCh b2
      && isDigitCh g1 && isDigitCh g2
      && decide (1 ≤ ((ws ++ (k1 :: k2 :: ':' :: n1 :: n2 :: ':' :: q1 :: q2 :: ']'
          :: (trail ++ l))).takeWhile isWsCh).length)) = true := by
    rw [htw]
    simp only [Bool.and_eq_true, decide_eq_true_eq] at hbool ⊢
    refine ⟨?_, hlen⟩
    tauto
  rw [if_pos hguard, hdw]
  show (if (isDigitCh k1 && isDigitCh k2 && isDigitCh n1 && isDigitCh n2
      && isDigitCh q1 && isDigitCh q2) = true then
    List.dropWhile isWsCh (trail ++ l)
  else ('[' :: a1 :: a2 :: '/' :: b1 :: b2 :: '/' :: g1 :: g2 :: (ws
      ++ (k1 :: k2 :: ':' :: n1 :: n2 :: ':' :: q1 :: q2 :: ']' :: (trail ++ l))))) = l
  have hguard2 : (isDigitCh k1 && isDigitCh k2 && isDigitCh n1 && isDigitCh n2
      && isDigitCh q1 && isDigitCh q2) = true := by
    simp only [Bool.and_eq_true] at hbool ⊢
    tauto
  rw [if_pos hguard2]
  rw [dropWhile_append_all trail l htrailall]
  exact dropWhile_head_neg l (fun c hc => (hhead c hc).2.1)

theorem not_mem_append_of {α : Type} {c : α} {a b : List α}
    (ha : c ∉ a) (hb : c ∉ b) : c ∉ a ++ b := by
  intro h
  rcases List.mem_append.mp h with h1 | h1
  · exact ha h1
  · exact hb h1

/-- Prepending a timestamp prefix (ISO or bracketed style) to an
escape-free line does not change its normalized key. -/
theorem normKey_post_ansi_ts (ts m : Str) (hts : IsIsoTs ts ∨ IsBracketTs ts)
    (hhead : HeadSafe m) :
    pyStrip (stripBracketTs (stripIsoTs (ts ++ m)))
      = pyStrip (stripBracketTs (stripIsoTs m)) := by
  rcases hts with hiso | hbr
  · rw [stripIsoTs_strips ts m hiso hhead,
      stripIsoTs_id m (fun c hc => (hhead c hc).1)]
  · have hbr2 := hbr
    obtain ⟨a1, a2, b1, b2, g1, g2, k1, k2, n1, n2, q1, q2, ws, trail,
      hts_eq, _, _, _, _⟩ := hbr2
    have hid1 : stripIsoTs (ts ++ m) = ts ++ m := by
      apply stripIsoTs_id
      intro c hc
      rw [hts_eq] at hc
      simp only [List.cons_append, List.head?_cons, Option.some_inj] at hc
      rw [← hc]
      decide
    rw [hid1, stripBracketTs_strips ts m hbr hhead,
      stripIsoTs_id m (fun c hc => (hhead c hc).1),
      stripBracketTs_id m (fun c hc => (hhead c hc).2.2.2.2)]

theorem normalize_key_ts (ts l : Str) (hts : IsIsoTs ts ∨ IsBracketTs ts)
    (hhead : HeadSafe l) (hesc1 : '\x1b' ∉ ts) (hesc2 : '\x1b' ∉ l) :
    _normalize_key (ts ++ l) = _normalize_key l := by
  unfold _normalize_key
  rw [stripAnsi_id _ (not_mem_append_of hesc1 hesc2), stripAnsi_id l hesc2]
  exact normKey_post_ansi_ts ts l hts hhead

/-- C5, counterexample: the two ERROR lines of this log are textually
identical except for the leading ISO-8601 timestamp prefix
"2024-01-02T03:04:05", lie in the same (empty) stage, and give rise to
two separate ERROR sections — but the greedy timestamp strip also eats
the digits "123 " that open the message itself, so the two sections get
different keys and fingerprints and are *not* collapsed: the
deduplicated output still has two sections, each with repeat count 1. -/
theorem c5_timestamp_counterexample :
    c5lines[0]? = some (lit "123 ERROR x")
    ∧ c5lines[22]? = some (lit "2024-01-02T03:04:05" ++ lit "123 ERROR x")
    ∧ (c5secs.map (·.tier)) = [TIER_ERROR, TIER_ERROR]
    ∧ (c5secs.map (·.phase)) = [[], []]
    ∧ (_deduplicate c5secs).length = 2
    ∧ ((_deduplicate c5secs).map (·.repeat_count)) = [1, 1] := by
  decide

/-- C5, amended: two sections of the same tier and stage whose single
key lines are the normalizations of raw lines `l1` and `l2` that, once
their ANSI escape sequences are stripped, are identical except that `l2`
additionally opens with an ISO-style or bracketed timestamp prefix `ts`
(the timestamp may be empty, covering lines that differ only by ANSI
escapes), deduplicate into one section with repeat count at least 2 —
provided, when a timestamp is present, that the shared ANSI-stripped
text opens with a character the greedy timestamp match cannot absorb
(not a digit, not whitespace, not `.`/`,`, not `[`). -/
theorem c5_timestamp_dedup (ts l1 l2 : Str)
    (sections pre mid post : List MatchedSection)
    (s1 s2 : MatchedSection)
    (hAnsi : stripAnsi l2 = ts ++ stripAnsi l1)
    (hcase : ts = [] ∨ ((IsIsoTs ts ∨ IsBracketTs ts) ∧ HeadSafe (stripAnsi l1)))
    (hdec : sections = pre ++ s1 :: mid ++ s2 :: post)
    (htier : s1.tier = s2.tier) (hphase : s1.phase = s2.phase)
    (hk1 : s1.key_lines = [_normalize_key l1])
    (hk2 : s2.key_lines = [_normalize_key l2])
    (hrc : ∀ s ∈ sections, 1 ≤ s.repeat_count) :
    ∃ u ∈ _deduplicate sections, u.fingerprint = s1.fingerprint
      ∧ 2 ≤ u.repeat_count := by
  have hkeq : _normalize_key l2 = _normalize_key l1 := by
    unfold _normalize_key
    rw [hAnsi]
    rcases hcase with hnil | ⟨hts, hhead⟩
    · rw [hnil, List.nil_append]
    · exact normKey_post_ansi_ts ts (stripAnsi l1) hts hhead
  have hfp : s2.fingerprint = s1.fingerprint := by
    rw [fingerprint_expand, fingerprint_expand]
    simp only [tokenOf, hk1, hk2, hkeq, htier, hphase, bestKeyLine, List.foldl]
  have hcount : 2 ≤ sections.countP (fun s => decide (s.fingerprint = s1.fingerprint)) := by
    rw [hdec, List.countP_append, List.countP_cons, List.countP_append, List.countP_cons]
    have h1 : (decide (s1.fingerprint = s1.fingerprint)) = true := by simp
    have h2 : (decide (s2.fingerprint = s1.fingerprint)) = true := by simp [hfp]
    rw [h1, h2]
    simp only [if_true]
    omega
  exact dedupGo_two sections [] s1.fingerprint (by simp) hrc (Or.inr (Or.inr hcount))

/-- C5, witness: the amended statement at the concrete raw lines
`"\x1b[31mERROR x"` (an ANSI colour escape, no timestamp) and
"2024-01-02 03:04:05 ERROR x" (a timestamp, no escape), which differ by
both a leading timestamp prefix and ANSI escape sequences. -/
theorem c5_timestamp_dedup_witness :
    ∃ u ∈ _deduplicate [c5wsec1, c5wsec2],
      u.fingerprint = c5wsec1.fingerprint ∧ 2 ≤ u.repeat_count :=
  c5_timestamp_dedup (lit "2024-01-02 03:04:05 ")
    ('\x1b' :: lit "[31mERROR x")
    (lit "2024-01-02 03:04:05 ERROR x")
    [c5wsec1, c5wsec2] [] [] [] c5wsec1 c5wsec2
    (by decide)
    (Or.inr ⟨Or.inl ⟨lit "2024-01-02 03:04:05", [], lit " ", by decide,
      ⟨'2', '0', '2', '4', '-', '0', '1', '-', '0', '2', ' ', '0', '3', '0', '4',
        '0', '5', by decide, by decide⟩,
      Or.inl rfl, by decide⟩,
      by
        intro h hh
        rw [show (stripAnsi ('\x1b' :: lit "[31mERROR x")).head? = some 'E'
          from rfl] at hh
        injection hh with he
        subst he
        decide⟩)
    rfl rfl rfl rfl rfl
    (by decide)

-- ---------------------------------------------------------------------------
-- C2: a CRITICAL section survives into the output
-- ---------------------------------------------------------------------------

theorem mem_enum_of_mem {α : Type} (l : List α) (a : α) (h : a ∈ l) :
    ∃ i, (i, a) ∈ l.enum := by
  obtain ⟨i, hi, hget⟩ := List.mem_iff_getElem.mp h
  exact ⟨i, by rw [List.mem_enum_iff_getElem?]; simp [List.getElem?_eq_getElem hi, hget]⟩

theorem classify_tier_cases (l : Str) (t : Str) (h : _classify_line l = some t) :
    t = TIER_CRITICAL ∨ t = TIER_ERROR ∨ t = TIER_WARNING := by
  unfold _classify_line at h
  split at h
  · exact Or.inl (Option.some_injective _ h).symm
  · split at h
    · exact Or.inr (Or.inl (Option.some_injective _ h).symm)
    · split at h
      · exact Or.inr (Or.inr (Option.some_injective _ h).symm)
      · exact absurd h (by simp)

theorem tierRank_zero (t : Str) (h : tierRank t = 0) : t = TIER_CRITICAL := by
  unfold tierRank at h
  split at h
  · assumption
  · split at h
    · exact absurd h (by decide)
    · split at h
      · exact absurd h (by decide)
      · exact absurd h (by decide)

theorem mergeStep_critical (stage_index : List (Nat × Str))
    (acc : List MatchedSection) (rr : RawRange)
    (h : rr.tier = TIER_CRITICAL ∨ ∃ s ∈ acc, s.tier = TIER_CRITICAL) :
    ∃ s ∈ mergeStep stage_index acc rr, s.tier = TIER_CRITICAL := by
  cases hlast : acc.getLast? with
  | none =>
    have heq : mergeStep stage_index acc rr =
        acc ++ [⟨rr.tier, rr.start, rr.stop, [_normalize_key rr.raw_line],
          _resolve_stage stage_index rr.idx, 1⟩] := by
      simp only [mergeStep, hlast]
    rw [heq]
    rcases h with h1 | ⟨s, hs1, _⟩
    · exact ⟨_, List.mem_append.mpr (Or.inr (List.mem_singleton.mpr rfl)), h1⟩
    · rw [List.getLast?_eq_none_iff] at hlast
      rw [hlast] at hs1
      simp at hs1
  | some prev =>
    have hprevmem : prev ∈ acc := List.mem_of_getLast?_eq_some hlast
    have hne : acc ≠ [] := by
      intro he
      rw [he] at hlast
      simp at hlast
    have hdecomp : acc.dropLast ++ [prev] = acc := by
      have h2 := List.getLast?_eq_getLast acc hne
      rw [h2] at hlast
      have h3 := Option.some_injective _ hlast
      rw [← h3]
      exact List.dropLast_concat_getLast hne
    by_cases hmerge : rr.start ≤ prev.stop + 1
    · have heq : mergeStep stage_index acc rr =
          acc.dropLast ++ [{ prev with
            stop := max prev.stop rr.stop,
            key_lines := if _normalize_key rr.raw_line ∈ prev.key_lines
                         then prev.key_lines
                         else prev.key_lines ++ [_normalize_key rr.raw_line],
            tier := if tierRank rr.tier < tierRank prev.tier then rr.tier
                    else prev.tier,
            phase := if _resolve_stage stage_index rr.idx ≠ []
                     then _resolve_stage stage_index rr.idx else prev.phase }] := by
        simp only [mergeStep, hlast, if_pos hmerge]
      rw [heq]
      rcases h with h1 | ⟨s, hs1, hs2⟩
      · by_cases hesc : tierRank rr.tier < tierRank prev.tier
        · refine ⟨_, List.mem_append.mpr (Or.inr (List.mem_singleton.mpr rfl)), ?_⟩
          simp only [if_pos hesc]
          exact h1
        · refine ⟨_, List.mem_append.mpr (Or.inr (List.mem_singleton.mpr rfl)), ?_⟩
          simp only [if_neg hesc]
          rw [h1] at hesc
          have hz : tierRank prev.tier = 0 := by
            have : tierRank TIER_CRITICAL = 0 := by decide
            omega
          exact tierRank_zero _ hz
      · rw [← hdecomp] at hs1
        rcases List.mem_append.mp hs1 with h2 | h2
        · exact ⟨s, List.mem_append.mpr (Or.inl h2), hs2⟩
        · simp only [List.mem_singleton] at h2
          subst h2
          refine ⟨_, List.mem_append.mpr (Or.inr (List.mem_singleton.mpr rfl)), ?_⟩
          have hnot : ¬ tierRank rr.tier < tierRank s.tier := by
            rw [hs2]
            simp [tierRank, TIER_CRITICAL]
          simp only [if_neg hnot]
          exact hs2
    · have heq : mergeStep stage_index acc rr =
          acc ++ [⟨rr.tier, rr.start, rr.stop, [_normalize_key rr.raw_line],
            _resolve_stage stage_index rr.idx, 1⟩] := by
        simp only [mergeStep, hlast, if_neg hmerge]
      rw [heq]
      rcases h with h1 | ⟨s, hs1, hs2⟩
      · exact ⟨_, List.mem_append.mpr (Or.inr (List.mem_singleton.mpr rfl)), h1⟩
      · exact ⟨s, List.mem_append.mpr (Or.inl hs1), hs2⟩

theorem scanFold_critical (stage_index : List (Nat × Str)) :
    ∀ (rrs : List RawRange) (acc : List MatchedSection),
    ((∃ r ∈ rrs, r.tier = TIER_CRITICAL) ∨ (∃ s ∈ acc, s.tier = TIER_CRITICAL)) →
    ∃ s ∈ rrs.foldl (mergeStep stage_index) acc, s.tier = TIER_CRITICAL := by
  intro rrs
  induction rrs with
  | nil =>
    intro acc h
    rcases h with ⟨r, hr, _⟩ | h2
    · simp at hr
    · exact h2
  | cons r rest ih =>
    intro acc h
    simp only [List.foldl_cons]
    apply ih
    rcases h with ⟨r', hr', ht⟩ | h2
    · rcases List.mem_cons.mp hr' with h3 | h3
      · exact Or.inr (mergeStep_critical stage_index acc r (Or.inl (h3 ▸ ht)))
      · exact Or.inl ⟨r', h3, ht⟩
    · exact Or.inr (mergeStep_critical stage_index acc r (Or.inr h2))

theorem scan_has_critical (lines : List Str) (stage_index : List (Nat × Str))
    (R : Nat) (h : ∃ l ∈ lines, _classify_line l = some TIER_CRITICAL) :
    ∃ s ∈ _scan lines stage_index R, s.tier = TIER_CRITICAL := by
  obtain ⟨l, hl, hcl⟩ := h
  obtain ⟨i, hi⟩ := mem_enum_of_mem lines l hl
  unfold _scan
  apply scanFold_critical
  left
  refine ⟨⟨i - R, min (lines.length - 1) (i + R), TIER_CRITICAL, l, i⟩, ?_, rfl⟩
  apply List.mem_map.mpr
  refine ⟨(i, TIER_CRITICAL, l), ?_, rfl⟩
  apply List.mem_filterMap.mpr
  exact ⟨(i, l), hi, by rw [hcl]; rfl⟩

theorem mergeStep_tiers (P : Str → Prop) (stage_index : List (Nat × Str))
    (acc : List MatchedSection) (rr : RawRange)
    (hacc : ∀ s ∈ acc, P s.tier) (hrr : P rr.tier) :
    ∀ s ∈ mergeStep stage_index acc rr, P s.tier := by
  intro s hs
  cases hlast : acc.getLast? with
  | none =>
    have heq : mergeStep stage_index acc rr =
        acc ++ [⟨rr.tier, rr.start, rr.stop, [_normalize_key rr.raw_line],
          _resolve_stage stage_index rr.idx, 1⟩] := by
      simp only [mergeStep, hlast]
    rw [heq] at hs
    rcases List.mem_append.mp hs with h1 | h1
    · exact hacc s h1
    · simp only [List.mem_singleton] at h1
      rw [h1]
      exact hrr
  | some prev =>
    have hprevmem : prev ∈ acc := List.mem_of_getLast?_eq_some hlast
    by_cases hmerge : rr.start ≤ prev.stop + 1
    · have heq : mergeStep stage_index acc rr =
          acc.dropLast ++ [{ prev with
            stop := max prev.stop rr.stop,
            key_lines := if _normalize_key rr.raw_line ∈ prev.key_lines
                         then prev.key_lines
                         else prev.key_lines ++ [_normalize_key rr.raw_line],
            tier := if tierRank rr.tier < tierRank prev.tier then rr.tier
                    else prev.tier,
            phase := if _resolve_stage stage_index rr.idx ≠ []
                     then _resolve_stage stage_index rr.idx else prev.phase }] := by
        simp only [mergeStep, hlast, if_pos hmerge]
      rw [heq] at hs
      rcases List.mem_append.mp hs with h1 | h1
      · exact hacc s ((List.dropLast_sublist acc).subset h1)
      · simp only [List.mem_singleton] at h1
        rw [h1]
        by_cases hesc : tierRank rr.tier < tierRank prev.tier
        · simp only [if_pos hesc]
          exact hrr
        · simp only [if_neg hesc]
          exact hacc prev hprevmem
    · have heq : mergeStep stage_index acc rr =
          acc ++ [⟨rr.tier, rr.start, rr.stop, [_normalize_key rr.raw_line],
            _resolve_stage stage_index rr.idx, 1⟩] := by
        simp only [mergeStep, hlast, if_neg hmerge]
      rw [heq] at hs
      rcases List.mem_append.mp hs with h1 | h1
      · exact hacc s h1
      · simp only [List.mem_singleton] at h1
        rw [h1]
        exact hrr

theorem scanFold_tiers (P : Str → Prop) (stage_index : List (Nat × Str)) :
    ∀ (rrs : List RawRange) (acc : List MatchedSection),
    (∀ s ∈ acc, P s.tier) → (∀ r ∈ rrs, P r.tier) →
    ∀ s ∈ rrs.foldl (mergeStep stage_index) acc, P s.tier := by
  intro rrs
  induction rrs with
  | nil => intro acc hacc _ s hs; exact hacc s hs
  | cons r rest ih =>
    intro acc hacc hrrs s hs
    simp only [List.foldl_cons] at hs
    refine ih _ ?_ ?_ s hs
    · exact mergeStep_tiers P stage_index acc r hacc
        (hrrs r (List.mem_cons_self r rest))
    · intro r' hr'
      exact hrrs r' (List.mem_cons_of_mem r hr')

theorem scan_tiers (lines : List Str) (stage_index : List (Nat × Str)) (R : Nat) :
    ∀ s ∈ _scan lines stage_index R,
      s.tier = TIER_CRITICAL ∨ s.tier = TIER_ERROR ∨ s.tier = TIER_WARNING := by
  intro s hs
  have hs' : s ∈ List.foldl (mergeStep stage_index) []
      ((((lines.enum).filterMap fun p =>
          (_classify_line p.2).map fun t => (p.1, t, p.2)).map fun m =>
        (⟨m.1 - R, min (lines.length - 1) (m.1 + R), m.2.1, m.2.2, m.1⟩
          : RawRange))) := hs
  refine scanFold_tiers
    (fun t => t = TIER_CRITICAL ∨ t = TIER_ERROR ∨ t = TIER_WARNING)
    stage_index _ [] (fun u hu => absurd hu (by simp)) ?_ s hs'
  intro r hr
  obtain ⟨m, hm, hmap⟩ := List.mem_map.mp hr
  obtain ⟨p, _, hcl⟩ := List.mem_filterMap.mp hm
  rw [← hmap]
  cases hc : _classify_line p.2 with
  | none => rw [hc] at hcl; simp at hcl
  | some t =>
    rw [hc] at hcl
    simp only [Option.map_some', Option.some_inj] at hcl
    have := classify_tier_cases p.2 t hc
    rw [← hcl]
    exact this

theorem tier_noPipe (t : Str)
    (h : t = TIER_CRITICAL ∨ t = TIER_ERROR ∨ t = TIER_WARNING) : '|' ∉ t := by
  rcases h with h | h | h <;> (subst h; decide)

theorem fingerprint_eq_tier (s1 s2 : MatchedSection)
    (h1 : '|' ∉ s1.tier) (h2 : '|' ∉ s2.tier)
    (h : s1.fingerprint = s2.fingerprint) : s1.tier = s2.tier := by
  rw [fingerprint_expand, fingerprint_expand] at h
  exact (pipe_split_inj _ _ _ _ h1 h2 h).1

theorem dedup_has_critical (sections : List MatchedSection)
    (hall : ∀ s ∈ sections,
      s.tier = TIER_CRITICAL ∨ s.tier = TIER_ERROR ∨ s.tier = TIER_WARNING)
    (h : ∃ s ∈ sections, s.tier = TIER_CRITICAL) :
    ∃ u ∈ _deduplicate sections, u.tier = TIER_CRITICAL := by
  obtain ⟨s, hs, hst⟩ := h
  obtain ⟨v, hv, hfp⟩ := dedupGo_exists_fp sections [] s hs
  obtain ⟨a, ha, htier, hafp⟩ := dedupGo_from_input sections [] v hv
  rcases ha with h0 | ha'
  · simp at h0
  · have hfpas : a.fingerprint = s.fingerprint := by rw [← hafp, hfp]
    have hta : '|' ∉ a.tier := tier_noPipe _ (hall a ha')
    have hts : '|' ∉ s.tier := tier_noPipe _ (hall s hs)
    have heqt : a.tier = s.tier := fingerprint_eq_tier a s hta hts hfpas
    exact ⟨v, hv, by rw [htier, heqt, hst]⟩

theorem fillTierGo_parts_extend (lines : List Str) (budget : Nat) (tier : Str) :
    ∀ (secs : List MatchedSection) (st : FillSt),
    ∃ ext, (fillTierGo lines budget tier secs st).parts = st.parts ++ ext := by
  intro secs
  induction secs with
  | nil => intro st; exact ⟨[], by simp [fillTierGo]⟩
  | cons s rest ih =>
    intro st
    simp only [fillTierGo]
    split
    · exact ih st
    · split
      · exact ⟨[], by simp⟩
      · obtain ⟨e, he⟩ := ih ⟨st.parts ++ [_format_section s lines
          (some (budget - st.used))], st.used
            + costOf (_format_section s lines (some (budget - st.used))),
          st.exhausted⟩
        exact ⟨_format_section s lines (some (budget - st.used)) :: e,
          by rw [he]; simp⟩

theorem runTiers_parts_extend (lines : List Str) (budget : Nat)
    (sections : List MatchedSection) :
    ∀ (ts : List Str) (st : FillSt),
    ∃ ext, (runTiers lines budget sections ts st).parts = st.parts ++ ext := by
  intro ts
  induction ts with
  | nil => intro st; exact ⟨[], by simp [runTiers]⟩
  | cons t rest ih =>
    intro st
    simp only [runTiers]
    split
    · exact ⟨[], by simp⟩
    · obtain ⟨e1, he1⟩ := fillTierGo_parts_extend lines budget t sections st
      obtain ⟨e2, he2⟩ := ih (fillTierGo lines budget t sections st)
      exact ⟨e1 ++ e2, by rw [he2, he1, List.append_assoc]⟩

theorem fillTierGo_first_critical (lines : List Str) (budget : Nat)
    (hb : MIN_CLIP_LINES + 1 ≤ budget) :
    ∀ (secs : List MatchedSection),
    (∃ s ∈ secs, s.tier = TIER_CRITICAL) →
    ∃ s ∈ secs, s.tier = TIER_CRITICAL ∧ ∃ extra,
      (fillTierGo lines budget TIER_CRITICAL secs ⟨[], 0, false⟩).parts
        = _format_section s lines (some budget) :: extra := by
  intro secs
  induction secs with
  | nil => intro h; obtain ⟨s, hs, _⟩ := h; simp at hs
  | cons s rest ih =>
    intro h
    by_cases hst : s.tier = TIER_CRITICAL
    · refine ⟨s, List.mem_cons_self s rest, hst, ?_⟩
      have hne : ¬ s.tier ≠ TIER_CRITICAL := by
        intro hc
        exact hc hst
      have hbud : ¬ (budget - (0:Nat) < MIN_CLIP_LINES + 1) := by omega
      simp only [fillTierGo, if_neg hne, if_neg hbud]
      obtain ⟨e, he⟩ := fillTierGo_parts_extend lines budget TIER_CRITICAL rest
        ⟨[] ++ [_format_section s lines (some (budget - 0))],
          0 + costOf (_format_section s lines (some (budget - 0))), false⟩
      refine ⟨e, ?_⟩
      rw [he]
      simp
    · obtain ⟨u, hu, hut⟩ := h
      rcases List.mem_cons.mp hu with h1 | h1
      · exact absurd (h1 ▸ hut) hst
      · obtain ⟨v, hv, hvt, extra, hx⟩ := ih ⟨u, h1, hut⟩
        refine ⟨v, List.mem_cons_of_mem s hv, hvt, extra, ?_⟩
        have hne : s.tier ≠ TIER_CRITICAL := hst
        simp only [fillTierGo, if_pos hne]
        exact hx

theorem budget_fill_head_critical (sections : List MatchedSection)
    (lines : List Str) (budget : Nat)
    (hb : MIN_CLIP_LINES + 1 ≤ budget)
    (hc : ∃ s ∈ sections, s.tier = TIER_CRITICAL) :
    ∃ s ∈ sections, s.tier = TIER_CRITICAL ∧ ∃ extra,
      _budget_fill sections lines budget
        = _format_section s lines (some budget) :: extra := by
  obtain ⟨s, hs, hst, extra, hx⟩ := fillTierGo_first_critical lines budget hb
    sections hc
  refine ⟨s, hs, hst, ?_⟩
  unfold _budget_fill tierOrderList
  have hstep : runTiers lines budget sections
      [TIER_CRITICAL, TIER_ERROR, TIER_WARNING] ⟨[], 0, false⟩
      = runTiers lines budget sections [TIER_ERROR, TIER_WARNING]
          (fillTierGo lines budget TIER_CRITICAL sections ⟨[], 0, false⟩) := by
    show (if (false : Bool) = true then _ else _) = _
    simp
  rw [hstep]
  obtain ⟨e2, he2⟩ := runTiers_parts_extend lines budget sections
    [TIER_ERROR, TIER_WARNING]
    (fillTierGo lines budget TIER_CRITICAL sections ⟨[], 0, false⟩)
  rw [he2, hx]
  exact ⟨extra ++ e2, by simp⟩

theorem summary_noNl (a b c d e : Nat) : '\n' ∉ summaryLine a b c d e := by
  unfold summaryLine
  exact noNl_append (noNl_append (noNl_append (noNl_append (noNl_append
    (noNl_append (noNl_append (noNl_append (noNl_append (noNl_append
      (by decide) (natRepr_noNl a)) (by decide)) (natRepr_noNl b))
      (by decide)) (natRepr_noNl c)) (by decide)) (natRepr_noNl d))
    (by decide)) (natRepr_noNl e)) (by decide)

theorem trunc_notice_noNl (h : Nat) :
    '\n' ∉ (lit "[Output truncated at " ++ natRepr h
      ++ lit " lines â€” hard safety limit]") := by
  exact noNl_append (noNl_append (by decide) (natRepr_noNl h)) (by decide)

theorem trunc_notice_ne_nil (h : Nat) :
    (lit "[Output truncated at " ++ natRepr h
      ++ lit " lines â€” hard safety limit]") ≠ [] := by
  intro he
  have : ('[' : Char) ∈ ([] : Str) := by
    rw [← he]
    simp [lit]
  simp at this

theorem take_ne_nil_of_ne_nil {α : Type} (l : List α) (n : Nat)
    (hl : l ≠ []) (hn : 1 ≤ n) : l.take n ≠ [] := by
  cases l with
  | nil => exact absurd rfl hl
  | cons a t =>
    cases n with
    | zero => omega
    | succ m => simp

theorem headBlock_split_len (lines : List Str) (hne : lines ≠ [])
    (hnl : ∀ l ∈ lines, '\n' ∉ l) :
    (charSplit (headBlock lines)).length ≤ 6 := by
  unfold headBlock
  rw [charSplit_append_cons]
  rw [charSplit_of_noNl _ (by decide)]
  rw [charSplit_joinLines_noNl _ (take_ne_nil_of_ne_nil lines LOG_HEAD_LINES hne
    (by decide)) (fun l hl => hnl l (List.take_subset _ _ hl))]
  simp only [List.length_append, List.length_cons, List.length_nil,
    List.length_take]
  have : min LOG_HEAD_LINES lines.length ≤ LOG_HEAD_LINES := Nat.min_le_left _ _
  simp only [LOG_HEAD_LINES] at this ⊢
  omega

theorem prefix_ne_nil {p h : Str} (hp : p <+: h) (hpne : p ≠ []) : h ≠ [] := by
  intro he
  subst he
  exact hpne (List.prefix_nil.mp hp)

theorem mem_take_append {α : Type} (A B : List α) (x : α) :
    ∀ n : Nat, A.length < n → x ∈ (A ++ x :: B).take n := by
  induction A with
  | nil =>
    intro n h
    cases n with
    | zero => omega
    | succ m => simp [List.take_succ_cons]
  | cons a as ih =>
    intro n h
    cases n with
    | zero => omega
    | succ m =>
      simp only [List.cons_append, List.take_succ_cons]
      refine List.mem_cons_of_mem a (ih m ?_)
      simp only [List.length_cons] at h
      omega

theorem splitlines_decomp (A B : List Str) (hd : Str) (hne : hd ≠ []) :
    ∃ B', dropLastIfEmpty (A ++ hd :: B) = A ++ hd :: B' := by
  unfold dropLastIfEmpty
  split
  · rename_i hlast
    cases B with
    | nil =>
      rw [List.getLast?_concat] at hlast
      exact absurd (Option.some_injective _ hlast) hne
    | cons b bs =>
      refine ⟨(b :: bs).dropLast, ?_⟩
      rw [List.dropLast_append_cons, List.dropLast_cons_of_ne_nil (by simp)]
  · exact ⟨B, rfl⟩

theorem hardGuard_keeps (result : Str) (hard : Nat) (A B : List Str) (hd : Str)
    (hsplit : pySplitlines result = A ++ hd :: B)
    (hA : A.length < hard) :
    hd ∈ pySplitlines (hardGuard result hard) := by
  by_cases htr : hard < (pySplitlines result).length
  · have heq : hardGuard result hard
        = joinLines ((pySplitlines result).take hard)
          ++ '\n' :: (lit "[Output truncated at " ++ natRepr hard
            ++ lit " lines â€” hard safety limit]") := by
      simp only [hardGuard, if_pos htr]
    rw [heq]
    have hrlne : pySplitlines result ≠ [] := by
      rw [hsplit]
      simp
    obtain ⟨T, hT⟩ : ∃ T, (pySplitlines result).take hard = T := ⟨_, rfl⟩
    have htne : T ≠ [] := hT ▸ take_ne_nil_of_ne_nil _ hard hrlne (by omega)
    have hnl : ∀ l ∈ T, '\n' ∉ l := by
      rw [← hT]
      exact fun l hl => pySplitlines_noNl result l (List.take_subset _ _ hl)
    have hmem : hd ∈ T := by
      rw [← hT, hsplit]
      exact mem_take_append A B hd hard hA
    rw [hT]
    show hd ∈ dropLastIfEmpty (charSplit (joinLines T
      ++ '\n' :: (lit "[Output truncated at " ++ natRepr hard
        ++ lit " lines â€” hard safety limit]")))
    rw [charSplit_append_cons, charSplit_joinLines_noNl T htne hnl,
      charSplit_of_noNl _ (trunc_notice_noNl hard)]
    have hlast : (T ++ [lit "[Output truncated at " ++ natRepr hard
          ++ lit " lines â€” hard safety limit]"]).getLast?
        = some (lit "[Output truncated at " ++ natRepr hard
          ++ lit " lines â€” hard safety limit]") := List.getLast?_concat _
    unfold dropLastIfEmpty
    split
    · rename_i hl0
      rw [hlast] at hl0
      exact absurd (Option.some_injective _ hl0) (trunc_notice_ne_nil hard)
    · exact List.mem_append.mpr (Or.inl hmem)
  · have heq : hardGuard result hard = result := by
      simp only [hardGuard, if_neg htr]
    rw [heq, hsplit]
    exact List.mem_append.mpr (Or.inr (List.mem_cons_self hd B))

theorem parts_split (summary : Str) (H : List Str) (f : Str)
    (extra : List Str) (T : List Str) (hs : '\n' ∉ summary)
    (hd : Str) (tl : List Str) (hf : charSplit f = hd :: tl) :
    charSplit (joinLines ([summary, []] ++ H
        ++ (f :: extra).flatMap (fun ep => [ep, []]) ++ T))
      = ([summary] ++ [[]] ++ H.flatMap charSplit)
        ++ hd :: (tl ++ [[]]
          ++ (extra.flatMap (fun ep => [ep, []])).flatMap charSplit
          ++ T.flatMap charSplit) := by
  rw [charSplit_joinLines _ (by simp)]
  simp only [List.flatMap_append, List.flatMap_cons, List.flatMap_nil,
    charSplit_of_noNl summary hs, hf,
    show charSplit ([] : Str) = [[]] from rfl]
  simp [List.append_assoc]

/-- C2 (counterexample): the log "FATAL: boom" has a CRITICAL-classified
line, yet with the tiny soft budget max_lines = 10 (where the fixed
overhead already exceeds the budget) `get_error_log` falls back to the
raw-tail path and emits no "--- CRITICAL" section header at all. -/
theorem c2_critical_counterexample :
    (∃ l ∈ pySplitlines c2text, _classify_line l = some TIER_CRITICAL) ∧
    ∀ ln ∈ pySplitlines (get_error_log c2text 10 350 true true),
      ¬ (lit "--- CRITICAL" <+: ln) := by
  constructor
  · exact ⟨lit "FATAL: boom", by decide, by decide⟩
  · decide

/-- C2 (amended): whenever the log is not pure whitespace, some line of it
classifies as CRITICAL, the soft budget leaves at least MIN_CLIP_LINES + 1
lines for sections after the fixed overhead, and the hard ceiling is at
least 10 lines, the output of `get_error_log` contains a line starting
with the "--- CRITICAL" section header.  (Under a budget so tiny that the
fixed overhead eats it, the code instead falls back to a raw tail with no
headers at all, refuting the claim's "even under a budget so tiny that
only the header fits".) -/
theorem c2_critical_header (text : Str) (max_lines hard_limit : Nat)
    (include_head include_tail : Bool)
    (hne : ¬ ((pyStrip text).length = 0))
    (hcrit : ∃ l ∈ pySplitlines text, _classify_line l = some TIER_CRITICAL)
    (hbud : MIN_CLIP_LINES + 1
      ≤ max_lines - fixedCost (pySplitlines text) include_head include_tail)
    (hhard : 10 ≤ hard_limit) :
    ∃ ln ∈ pySplitlines
      (get_error_log text max_lines hard_limit include_head include_tail),
      lit "--- CRITICAL" <+: ln := by
  have hLne : pySplitlines text ≠ [] := by
    obtain ⟨l, hl, _⟩ := hcrit
    intro he
    rw [he] at hl
    simp at hl
  have hscanC : ∃ s ∈ _scan (pySplitlines text)
      (_build_stage_index (pySplitlines text)) CONTEXT_LINES,
      s.tier = TIER_CRITICAL :=
    scan_has_critical _ _ _ hcrit
  have hsec : ¬ (_scan (pySplitlines text)
      (_build_stage_index (pySplitlines text)) CONTEXT_LINES = []) := by
    obtain ⟨s, hs, _⟩ := hscanC
    intro he
    rw [he] at hs
    simp at hs
  have hdC : ∃ u ∈ _deduplicate (_scan (pySplitlines text)
      (_build_stage_index (pySplitlines text)) CONTEXT_LINES),
      u.tier = TIER_CRITICAL :=
    dedup_has_critical _ (scan_tiers _ _ _) hscanC
  obtain ⟨s, hsmem, hst, extra, hfill⟩ :=
    budget_fill_head_critical
      (_deduplicate (_scan (pySplitlines text)
        (_build_stage_index (pySplitlines text)) CONTEXT_LINES))
      (pySplitlines text)
      (max_lines - fixedCost (pySplitlines text) include_head include_tail)
      hbud hdC
  have hpre : lit "--- CRITICAL" <+: _format_section s (pySplitlines text)
      (some (max_lines
        - fixedCost (pySplitlines text) include_head include_tail)) := by
    have hp := format_tier_starts s (pySplitlines text)
      (some (max_lines
        - fixedCost (pySplitlines text) include_head include_tail))
    rw [hst] at hp
    exact hp
  obtain ⟨hd, tl, hsplitf, hprehd⟩ :=
    isPrefix_head_charSplit _ _ hpre (by decide)
  have hbud' : ¬ (max_lines
      - fixedCost (pySplitlines text) include_head include_tail
      < MIN_CLIP_LINES + 1) := by omega
  have hpartsne : ¬ (_budget_fill
      (_deduplicate (_scan (pySplitlines text)
        (_build_stage_index (pySplitlines text)) CONTEXT_LINES))
      (pySplitlines text)
      (max_lines - fixedCost (pySplitlines text) include_head include_tail)
      = []) := by
    rw [hfill]
    simp
  simp only [get_error_log]
  rw [if_neg hne, if_neg hsec, if_neg hbud', if_neg hpartsne, hfill]
  have hflat := parts_split
    (summaryLine (pySplitlines text).length
      ((_deduplicate (_scan (pySplitlines text)
        (_build_stage_index (pySplitlines text)) CONTEXT_LINES)).countP
        (fun u : MatchedSection => decide (u.tier = TIER_CRITICAL)))
      ((_deduplicate (_scan (pySplitlines text)
        (_build_stage_index (pySplitlines text)) CONTEXT_LINES)).countP
        (fun u : MatchedSection => decide (u.tier = TIER_ERROR)))
      ((_deduplicate (_scan (pySplitlines text)
        (_build_stage_index (pySplitlines text)) CONTEXT_LINES)).countP
        (fun u : MatchedSection => decide (u.tier = TIER_WARNING)))
      (((_deduplicate (_scan (pySplitlines text)
        (_build_stage_index (pySplitlines text)) CONTEXT_LINES)).map
        (fun u : MatchedSection => u.repeat_count - 1)).sum))
    (if include_head then [headBlock (pySplitlines text), []] else [])
    (_format_section s (pySplitlines text)
      (some (max_lines
        - fixedCost (pySplitlines text) include_head include_tail)))
    extra
    (if include_tail then [tailBlock (pySplitlines text)] else [])
    (summary_noNl _ _ _ _ _) hd tl hsplitf
  have hhdne : hd ≠ [] := prefix_ne_nil hprehd (by decide)
  obtain ⟨B', hB'⟩ := splitlines_decomp _ _ hd hhdne
  have hAlen : ([summaryLine (pySplitlines text).length
      ((_deduplicate (_scan (pySplitlines text)
        (_build_stage_index (pySplitlines text)) CONTEXT_LINES)).countP
        (fun u : MatchedSection => decide (u.tier = TIER_CRITICAL)))
      ((_deduplicate (_scan (pySplitlines text)
        (_build_stage_index (pySplitlines text)) CONTEXT_LINES)).countP
        (fun u : MatchedSection => decide (u.tier = TIER_ERROR)))
      ((_deduplicate (_scan (pySplitlines text)
        (_build_stage_index (pySplitlines text)) CONTEXT_LINES)).countP
        (fun u : MatchedSection => decide (u.tier = TIER_WARNING)))
      (((_deduplicate (_scan (pySplitlines text)
        (_build_stage_index (pySplitlines text)) CONTEXT_LINES)).map
        (fun u : MatchedSection => u.repeat_count - 1)).sum)]
      ++ [[]] ++ (if include_head
        then [headBlock (pySplitlines text), []] else []).flatMap
        charSplit).length < hard_limit := by
    cases include_head with
    | false =>
      simp only [Bool.false_eq_true, if_false, List.flatMap_nil]
      simp only [List.length_append, List.length_cons, List.length_nil]
      omega
    | true =>
      simp only [if_true, List.flatMap_cons, List.flatMap_nil]
      have hh := headBlock_split_len (pySplitlines text) hLne
        (pySplitlines_noNl text)
      simp only [List.length_append, List.length_cons, List.length_nil,
        show charSplit ([] : Str) = [[]] from rfl]
      omega
  refine ⟨hd, ?_, hprehd⟩
  apply hardGuard_keeps _ hard_limit _ B' hd ?_ hAlen
  show dropLastIfEmpty (charSplit _) = _
  rw [hflat]
  exact hB'

theorem c2_critical_header_witness :
    ∃ ln ∈ pySplitlines (get_error_log c2text 250 350 true true),
      lit "--- CRITICAL" <+: ln :=
  c2_critical_header c2text 250 350 true true (by decide) (by decide)
    (by decide) (by decide)

-- ---------------------------------------------------------------------------
-- C1: the hard line ceiling
-- ---------------------------------------------------------------------------

theorem noMatchNotice_noNl (m : Nat) : '\n' ∉ noMatchNotice m := by
  unfold noMatchNotice
  exact noNl_append (noNl_append (by decide) (natRepr_noNl m)) (by decide)

theorem truncate_tail_split_len (text : Str) (max_lines : Nat)
    (hml : 1 ≤ max_lines) :
    (charSplit (truncate_tail text max_lines)).length ≤ max_lines + 1 := by
  unfold truncate_tail
  by_cases hfit : (pySplitlines text).length ≤ max_lines
  · rw [if_pos hfit]
    have h1 := length_le_dropLastIfEmpty (charSplit text)
    have h2 : pySplitlines text = dropLastIfEmpty (charSplit text) := rfl
    rw [h2] at hfit
    omega
  · rw [if_neg hfit]
    have hm0 : ¬ (max_lines = 0) := by omega
    rw [if_neg hm0]
    have hassoc : (lit "[Log truncated: showing last " ++ natRepr max_lines
          ++ lit " of " ++ natRepr (pySplitlines text).length
          ++ lit " lines]" ++ ['\n'])
        ++ joinLines ((pySplitlines text).drop
            ((pySplitlines text).length - max_lines))
      = (lit "[Log truncated: showing last " ++ natRepr max_lines
          ++ lit " of " ++ natRepr (pySplitlines text).length
          ++ lit " lines]")
        ++ '\n' :: joinLines ((pySplitlines text).drop
            ((pySplitlines text).length - max_lines)) := by
      simp [List.append_assoc]
    rw [hassoc, charSplit_append_cons]
    rw [charSplit_of_noNl _ (noNl_append (noNl_append (noNl_append
      (noNl_append (by decide) (natRepr_noNl max_lines)) (by decide))
      (natRepr_noNl (pySplitlines text).length)) (by decide))]
    have hklen : ((pySplitlines text).drop
        ((pySplitlines text).length - max_lines)).length = max_lines := by
      rw [List.length_drop]
      omega
    have hkne : (pySplitlines text).drop
        ((pySplitlines text).length - max_lines) ≠ [] := by
      intro he
      rw [he] at hklen
      simp at hklen
      omega
    rw [charSplit_joinLines_noNl _ hkne
      (fun l hl => pySplitlines_noNl text l (List.drop_subset _ _ hl))]
    simp only [List.length_append, List.length_cons, List.length_nil, hklen]
    omega

theorem fallback_bound (pref text : Str) (max_lines : Nat)
    (hpref : '\n' ∉ pref) (hml : 1 ≤ max_lines) :
    (pySplitlines (pref ++ '\n' :: '\n' :: truncate_tail text max_lines)).length
      ≤ max_lines + 3 := by
  have h1 : charSplit (pref ++ '\n' :: '\n' :: truncate_tail text max_lines)
      = [pref] ++ [] :: charSplit (truncate_tail text max_lines) := by
    rw [charSplit_append_cons, charSplit_of_noNl pref hpref]
    have : charSplit ('\n' :: truncate_tail text max_lines)
        = [] :: charSplit (truncate_tail text max_lines) := by
      show (if '\n' = '\n' then _ else _) = _
      rw [if_pos rfl]
    rw [this]
  have h2 : pySplitlines (pref ++ '\n' :: '\n' :: truncate_tail text max_lines)
      = dropLastIfEmpty (charSplit (pref ++ '\n' :: '\n'
        :: truncate_tail text max_lines)) := rfl
  rw [h2, h1]
  have h3 := dropLastIfEmpty_length_le
    ([pref] ++ [] :: charSplit (truncate_tail text max_lines))
  have h4 := truncate_tail_split_len text max_lines hml
  simp only [List.length_append, List.length_cons, List.length_nil] at h3
  omega

theorem hardGuard_bound (result : Str) (hard : Nat) (h1 : 1 ≤ hard) :
    (pySplitlines (hardGuard result hard)).length ≤ hard + 1 := by
  by_cases htr : hard < (pySplitlines result).length
  · have heq : hardGuard result hard
        = joinLines ((pySplitlines result).take hard)
          ++ '\n' :: (lit "[Output truncated at " ++ natRepr hard
            ++ lit " lines â€” hard safety limit]") := by
      simp only [hardGuard, if_pos htr]
    rw [heq]
    have hrlne : pySplitlines result ≠ [] := by
      intro he
      rw [he] at htr
      simp at htr
    obtain ⟨T, hT⟩ : ∃ T, (pySplitlines result).take hard = T := ⟨_, rfl⟩
    have htne : T ≠ [] := hT ▸ take_ne_nil_of_ne_nil _ hard hrlne h1
    have hnl : ∀ l ∈ T, '\n' ∉ l := by
      rw [← hT]
      exact fun l hl => pySplitlines_noNl result l (List.take_subset _ _ hl)
    have hTlen : T.length ≤ hard := by
      rw [← hT, List.length_take]
      omega
    rw [hT]
    show (dropLastIfEmpty (charSplit (joinLines T
      ++ '\n' :: (lit "[Output truncated at " ++ natRepr hard
        ++ lit " lines â€” hard safety limit]")))).length ≤ hard + 1
    rw [charSplit_append_cons, charSplit_joinLines_noNl T htne hnl,
      charSplit_of_noNl _ (trunc_notice_noNl hard)]
    have h5 := dropLastIfEmpty_length_le (T ++ [lit "[Output truncated at "
      ++ natRepr hard ++ lit " lines â€” hard safety limit]"])
    simp only [List.length_append, List.length_cons, List.length_nil] at h5
    omega
  · have heq : hardGuard result hard = result := by
      simp only [hardGuard, if_neg htr]
    rw [heq]
    omega

/-- C1 (counterexample): a log of ten unclassified lines under
max_lines = 250 and hard_limit = 5 takes the no-match fallback path,
which bypasses the hard ceiling entirely: the output has 12 lines,
exceeding hard_limit + 1 = 6. -/
theorem c1_hard_limit_counterexample :
    ¬ ((pySplitlines (get_error_log c1text 250 5 true true)).length
      ≤ 5 + 1) := by decide

/-- C1 (amended): for positive max_lines and hard_limit, the output of
`get_error_log` has at most max (hard_limit + 1) (max_lines + 3) lines:
the hard ceiling (plus its notice line) caps the main path, but the
no-match / tiny-budget / empty-parts fallbacks bypass `hardGuard` and are
instead capped by the raw-tail truncation at max_lines + 3 lines
(prefix line, blank line, tail notice, and up to max_lines kept lines). -/
theorem c1_hard_limit_amended (text : Str) (max_lines hard_limit : Nat)
    (include_head include_tail : Bool)
    (hml : 1 ≤ max_lines) (hhl : 1 ≤ hard_limit) :
    (pySplitlines
        (get_error_log text max_lines hard_limit include_head include_tail)).length
      ≤ max (hard_limit + 1) (max_lines + 3) := by
  simp only [get_error_log]
  by_cases h0 : (pyStrip text).length = 0
  · rw [if_pos h0]
    have h1 : (pySplitlines (lit "[Console log is empty]")).length = 1 := by
      decide
    rw [h1]
    exact le_trans (by omega) (le_max_right (hard_limit + 1) (max_lines + 3))
  · rw [if_neg h0]
    by_cases hsec : _scan (pySplitlines text)
        (_build_stage_index (pySplitlines text)) CONTEXT_LINES = []
    · rw [if_pos hsec]
      exact le_trans (fallback_bound _ text max_lines (noMatchNotice_noNl _) hml)
        (le_max_right _ _)
    · rw [if_neg hsec]
      by_cases hbud : max_lines
          - fixedCost (pySplitlines text) include_head include_tail
          < MIN_CLIP_LINES + 1
      · rw [if_pos hbud]
        exact le_trans
          (fallback_bound _ text max_lines (summary_noNl _ _ _ _ _) hml)
          (le_max_right _ _)
      · rw [if_neg hbud]
        by_cases hparts : _budget_fill
            (_deduplicate (_scan (pySplitlines text)
              (_build_stage_index (pySplitlines text)) CONTEXT_LINES))
            (pySplitlines text)
            (max_lines - fixedCost (pySplitlines text) include_head include_tail)
            = []
        · rw [if_pos hparts]
          exact le_trans
            (fallback_bound _ text max_lines (summary_noNl _ _ _ _ _) hml)
            (le_max_right _ _)
        · rw [if_neg hparts]
          exact le_trans (hardGuard_bound _ hard_limit hhl) (le_max_left _ _)

theorem c1_hard_limit_amended_witness :
    (pySplitlines (get_error_log c1text 3 5 true true)).length
      ≤ max (5 + 1) (3 + 3) :=
  c1_hard_limit_amended c1text 3 5 true true (by decide) (by decide)
